import Mathlib

/-!  Verification model of the LOXR tree-walking interpreter.

Definitions are shallow embeddings of the Rust source under `src/_lox_/`:
`f64` is modelled as the rationals, `Rc<RefCell<Environment>>` handles are
indices into an explicit store of cells, Rust panics are an explicit
`panicked` outcome, and recursive procedures take an explicit fuel argument
(`none` / a dedicated constructor marks fuel exhaustion, which corresponds
to nontermination of the source).  -/

namespace LOXR

/-- `TokenType` from `tokenizer/token_type.rs` (`CLASS` is spelled `CLASSKW`).
`MODULUS` is matched by `Parser::factor` and the evaluator's `%` arm but is
missing from this snapshot of the enum; it is included here. -/
inductive TokenType where
  | LEFT_PAREN | RIGHT_PAREN | LEFT_BRACE | RIGHT_BRACE | LEFT_SQUARE | RIGHT_SQUARE
  | COMMA | DOT | MINUS | PLUS | SEMICOLON | SLASH | STAR | BANG | BANG_EQUAL
  | EQUAL | EQUAL_EQUAL | GREATER | GREATER_EQUAL | LESS | LESS_EQUAL
  | TERNARYC | TERNARYE
  | IDENTIFIER | STRING | NUMBER
  | AND | CLASSKW | ELSE | FALSE | FUN | FOR | IF | NIL | OR | PRINT | RETURN
  | SUPER | THIS | TRUE | VAR | WHILE
  | EOF
  | MULTI_LINE_COMMENT | COMMENT | MISSING_OPERAND
  | MODULUS
  deriving DecidableEq, Repr

/-- `TokenType::is_primary`. -/
def TokenType.isPrimary : TokenType → Bool
  | .NIL | .FALSE | .TRUE | .STRING | .IDENTIFIER | .NUMBER => true
  | _ => false

/-- `Token` from `tokenizer/token.rs` (the `r#type` field is called `ttype`). -/
structure Token where
  ttype : TokenType
  lexeme : String
  ln : Nat
  col : Nat
  deriving DecidableEq, Repr

/-- `Token::location`. -/
def Token.location (t : Token) : String :=
  "line " ++ toString t.ln ++ " col " ++ toString t.col

/-- `Expression` as used by `parser/mod.rs` and `parser/traits/evaluate.rs`
(the `expressions.rs` snapshot predates the `Variable`, `Assignment`,
`LogicOr`, `LogicAnd` and `Call` variants those files construct and match).
The component structs (`BinaryExpr`, `TernaryExpr`, `UnaryExpr`, `Literal`,
`Grouping`, `AssignmentExpr`, `OrExpr`, `AndExpr`, `FnCallExpr`) are
flattened into constructor fields. -/
inductive Expression where
  | CommaExpr (items : List Expression)
  | TernExpr (condition if_true if_false : Expression)
  | BinExpr (left : Expression) (operator : Token) (right : Expression)
  | UnExpr (operator : Token) (operand : Expression)
  | Lit (inner : Token)
  | Group (inner : Expression)
  | Variable (t : Token)
  | Assignment (name : Token) (right : Expression)
  | LogicOr (left : Expression) (operator : Token) (right : Expression)
  | LogicAnd (left : Expression) (operator : Token) (right : Expression)
  | Call (callee : Expression) (paren : Token) (args : List Expression)
  | Error (inner : Expression)

/-- `ParserError` from `parser/error.rs`. -/
inductive ParserError where
  | UnbalancedParen
  | InvalidToken (t : Option Token)
  | MissingOperand (t : TokenType)
  | ExpectedExpression
  | UnexpectedEOF
  | ErrorProduction (e : Expression)
  | IllegalStmt (msg : Option String)
  | InvalidAssignmentTarget
  | TooManyArgs (t : Option Token)
  | InvalidFuncDecl
  | InvalidFuncArgs

/-- The `thiserror` display of `ParserError` (ANSI colors dropped); used by
`From<ParserError> for Stmt` to build `ErrStmt` messages. -/
def errMessage : ParserError → String
  | .UnbalancedParen => "Parenthesis mismatch"
  | .InvalidToken (some t) => "Invalid token found: " ++ t.lexeme
  | .InvalidToken none => "Invalid token found: Unknown Token"
  | .MissingOperand _ => "Expected operand"
  | .ExpectedExpression => "Expected Expression"
  | .UnexpectedEOF => "Expected one of '\x7d', ';' but found EOF"
  | .ErrorProduction _ => "Error production"
  | .IllegalStmt (some err) => "Illegal Statement: " ++ err
  | .IllegalStmt none => "Illegal Statement"
  | .InvalidAssignmentTarget => "Invalid assignment target"
  | .TooManyArgs _ => "Cannot accept more than 255 arguments in function call"
  | .InvalidFuncDecl => "Invalid function declaration, expected identifier"
  | .InvalidFuncArgs => "Invalid function arguments"

/-- `Stmt` from `parser/statement.rs`.  The snapshot of that file predates the
`While` variant built by `Parser::while_statement` and the `Break` / `FunDecl`
variants matched by the interpreter; those are modelled from the spec (§3
statement grammar: `While{condition, body}`, `Break`,
`FunDecl{name, params, body}`) and from their construction sites. -/
inductive Stmt where
  | ExprStmt (e : Expression)
  | Print (e : Expression)
  | ErrStmt (message : String)
  | Empty
  | Block (stmts : List Stmt)
  | IfStmt (condition : Expression) (then_ : Stmt) (else_ : Option Stmt)
  | VarDecl (name : String) (initializer : Option Expression)
  | While (condition : Expression) (body : Stmt)
  | Break
  | FunDecl (ident : Token) (params : List Token) (body : List Stmt)

/-- `From<ParserError> for Stmt`. -/
def stmtOfError (e : ParserError) : Stmt := .ErrStmt (errMessage e)

/-- `RuntimeError` from `parser/error.rs`. -/
inductive RuntimeError where
  | UncaughtReference (t : Token) (msg : String)
  | UndefinedVar (name : String)
  | UndefinedFunc (name : String)
  deriving DecidableEq

/-- `EvalError` from `parser/error.rs`. -/
inductive EvalError where
  | InvalidExpr (e : Expression) (msg : Option String)
  | ErrorProduction
  | DivideByZero (e : Expression)
  | VariableEval (r : RuntimeError)
  | BreakWithout
  | FunctionUndefined (r : RuntimeError)
  | FunctionArgError
  | FunctionCallError (loc : String)

/-- Alias used in `Value.*` signatures (inside the `Value` namespace the bare
name `Bool` would refer to the constructor). -/
abbrev BoolT := Bool

/-- Alias used in `Value.*` signatures, see `BoolT`. -/
abbrev StringT := String

mutual
/-- `Value` from `parser/value.rs`, extended with the `Function` and `Break`
variants the interpreter uses (spec §3: `Double(f64) | Bool | String | Nil |
Function(shared closure) | Break-sentinel`; this snapshot of `value.rs`
predates the last two).  `f64` is modelled as `ℚ`. -/
inductive Value where
  | Double (d : ℚ)
  | Bool (b : Bool)
  | String (s : String)
  | Nil
  | Function (f : LoxFunction)
  | Break

/-- `LoxFunction` as constructed by the interpreter's `FunDecl` arm:
`{stack_env, ident, arity, body, params}`; the `Rc<RefCell<Environment>>`
handle `stack_env` is a store index. -/
inductive LoxFunction where
  | mk (stack_env : Nat) (ident : Token) (arity : Nat) (body : List Stmt)
      (params : List String)
end

/-- `Value::is_truthy`: only `false` and `nil` are falsey. -/
def Value.isTruthy : Value → BoolT
  | .Bool b => b
  | .Nil => false
  | _ => true

/-- `Value::is_numeric`. -/
def Value.isNumeric : Value → Option ℚ
  | .Double d => some d
  | _ => none

/-- `Value::is_string`. -/
def Value.isString : Value → Option StringT
  | .String s => some s
  | _ => none

/-- `v == Value::Nil` (the derived `PartialEq` compared against `Nil` only
checks the variant). -/
def Value.isNil : Value → BoolT
  | .Nil => true
  | _ => false

/-- `Environment` from `interpreter/environment.rs`: `values` is the scope's
bindings (`HashMap` modelled as an association list with replace-on-insert),
`enclosing` the optional parent handle (a store index).  The `inLoop` field
backs `Environment::loop_enclosed_by` / `in_loop`, which the interpreter
calls but which are missing from this snapshot of `environment.rs`; it is
modelled from the spec (§3: `in_loop: bool`). -/
structure Env where
  values : List (String × Value)
  enclosing : Option Nat
  isGlobal : Bool
  inLoop : Bool


/-- `Environment::default`. -/
def Env.base : Env := ⟨[], none, true, false⟩

/-- `Environment::enclosed_by`. -/
def enclosedBy (parent : Nat) : Env := ⟨[], some parent, false, false⟩

/-- Modelled from the spec: `Environment::loop_enclosed_by` (used by
`Interpreter::execute`, missing from the snapshot) — `enclosed_by` with the
loop flag set. -/
def loopEnclosedBy (parent : Nat) : Env := ⟨[], some parent, false, true⟩

/-- The heap of `Rc<RefCell<Environment>>` cells. -/
abbrev Store := List Env

def cellAt (st : Store) (i : Nat) : Env := st.getD i Env.base

def setCell (st : Store) (i : Nat) (e : Env) : Store := st.set i e

/-- `RefCell::swap` of two cells' contents. -/
def swapCells (st : Store) (i j : Nat) : Store :=
  let ei := cellAt st i
  let ej := cellAt st j
  setCell (setCell st i ej) j ei

def lookupVal : List (String × Value) → String → Option Value
  | [], _ => none
  | (k, v) :: rest, n => if k = n then some v else lookupVal rest n

/-- `HashMap::contains_key`. -/
def containsKey (m : List (String × Value)) (n : String) : Bool :=
  (lookupVal m n).isSome

/-- `HashMap::insert` (replace an existing binding, otherwise add one). -/
def insertVal : List (String × Value) → String → Value → List (String × Value)
  | [], n, v => [(n, v)]
  | (k, w) :: rest, n, v =>
      if k = n then (n, v) :: rest else (k, w) :: insertVal rest n v

/-- `Memory::define`: unconditionally insert/overwrite in the given scope. -/
def memDefine (st : Store) (cell : Nat) (name : String) (v : Value) : Store :=
  let e := cellAt st cell
  setCell st cell { e with values := insertVal e.values name v }

/-- Outcome of `Memory::get`. -/
inductive GetRes where
  | found (v : Option Value)
  | errR (e : RuntimeError)
  | panicked
  | fuelOut

/-- `Memory::get` from `interpreter/environment.rs`.  The
`else { current_env.swap(encl_env); continue }` branch always aborts with a
`BorrowMutError` panic: `RefCell::swap` takes a mutable borrow of the current
cell while the `if let` scrutinee's immutable borrow is still live (the
comments inside `put` document exactly this), so that branch is `panicked`
and `get` never mutates the store.  A present-but-`Nil` binding yields
`found none` (`Ok(None)`), the code's marker for "declared but
uninitialized". -/
def memGet : Nat → Store → Nat → Token → GetRes
  | 0, _, _, _ => .fuelOut
  | fuel+1, st, cell, tok =>
    let env := cellAt st cell
    let name := tok.lexeme
    match lookupVal env.values name with
    | some v => if v.isNil then .found none else .found (some v)
    | none =>
      match env.enclosing with
      | some encl =>
        match memGet fuel st encl tok with
        | .found (some v) => .found (some v)
        | .found none => .found none
        | .fuelOut => .fuelOut
        | _ => .panicked
      | none =>
        if ¬ env.isGlobal then .panicked
        else
          match lookupVal env.values name with
          | some v => if v.isNil then .found none else .found (some v)
          | none =>
              .errR (.UncaughtReference tok
                ("variable '" ++ name ++ "' is not defined"))

/-- Outcome of `Memory::put`. -/
inductive PutRes where
  | okP
  | errR (e : RuntimeError)
  | panicked
  | fuelOut

/-- The `loop` inside `Memory::put`.  `selfCell` is the cell `current_env`
points at (that handle is never retargeted — the code "advances" through the
chain by swapping cell contents), `prevCell` is the cell the `previous`
handle points at, `upgrade` is `upgrade_scope`.  A swap of a cell with
itself would be a `RefCell` double borrow, hence `panicked`. -/
def putLoop : Nat → Store → Nat → String → Value → Nat → Nat → Store × PutRes
  | 0, st, _, _, _, _, _ => (st, .fuelOut)
  | fuel+1, st, selfCell, name, v, prevCell, upgrade =>
    if 1 ≤ upgrade ∧ selfCell = prevCell then (st, .panicked) else
    let st1 := if 1 ≤ upgrade then swapCells st selfCell prevCell else st
    let env := cellAt st1 selfCell
    match env.enclosing with
    | some encl =>
      if upgrade = 0 then putLoop fuel st1 selfCell name v encl 1
      else if containsKey (cellAt st1 encl).values name then
        (memDefine st1 encl name v, .okP)
      else putLoop fuel st1 selfCell name v encl (upgrade + upgrade)
    | none =>
      if ¬ env.isGlobal then (st1, .panicked)
      else if containsKey env.values name then
        (memDefine st1 selfCell name v, .okP)
      else (st1, .errR (.UndefinedVar name))

/-- `Memory::put` from `interpreter/environment.rs`: the fast path updates the
current scope; otherwise `previous` starts out as a freshly allocated
`Default::default()` cell and the loop above runs. -/
def memPut (fuel : Nat) (st : Store) (selfCell : Nat) (name : String)
    (v : Value) : Store × PutRes :=
  if containsKey (cellAt st selfCell).values name then
    (memDefine st selfCell name v, .okP)
  else
    putLoop fuel (st ++ [Env.base]) selfCell name v st.length 0

/-- Reference resolution as the spec describes it (nearest enclosing binding
wins); used to state claims about `memGet`.  `some (some v)` = found,
`some none` = the chain is exhausted, `none` = out of fuel. -/
def resolveF : Nat → Store → Nat → String → Option (Option Value)
  | 0, _, _, _ => none
  | fuel+1, st, cell, name =>
    match lookupVal (cellAt st cell).values name with
    | some v => some (some v)
    | none =>
      match (cellAt st cell).enclosing with
      | some encl => resolveF fuel st encl name
      | none => some none

/-- Concrete three-scope chain for exercising `Memory::put`: cell 0 is the
current scope (empty), its parent cell 1 binds `x`, the global cell 2 is
empty. -/
def c2Store : Store :=
  [⟨[], some 1, false, false⟩,
   ⟨[("x", .Double 1)], some 2, false, false⟩,
   ⟨[], none, true, false⟩]

/-! ### Evaluator (`parser/traits/evaluate.rs` and `interpreter/mod.rs`) -/

/-- Truncation toward zero, for the `f64 % f64` model. -/
def ratTrunc (q : ℚ) : ℤ := if 0 ≤ q then ⌊q⌋ else -⌊-q⌋

/-- `f64 % f64` (remainder with the dividend's sign) over the rational model.
For a zero divisor `f64` yields `NaN`, which `ℚ` cannot represent; that case
(outside every claim) falls back to returning the dividend. -/
def ratMod (a b : ℚ) : ℚ := a - b * (ratTrunc (a / b) : ℚ)

/-- `f64::to_string`, approximated on the rational model (exact for
integers). -/
def numToString (q : ℚ) : String :=
  if q.den = 1 then toString q.num else toString q.num ++ "/" ++ toString q.den

def cmpQ (a b : ℚ) : Ordering :=
  if a < b then .lt else if a = b then .eq else .gt

def cmpB : Bool → Bool → Ordering
  | false, true => .lt
  | true, false => .gt
  | _, _ => .eq

/-- Modelled from the spec: `Value`'s `PartialOrd` (used by the comparison
arms of `BinaryExpr::eval`) is not in this snapshot of `value.rs`.  Spec
§4.3: comparisons are "defined wherever the two values admit a partial
order (numeric vs numeric, or the language's defined equality for other
types); otherwise fails". -/
def partialCmp : Value → Value → Option Ordering
  | .Double a, .Double b => some (cmpQ a b)
  | .String a, .String b => some (compare a b)
  | .Bool a, .Bool b => some (cmpB a b)
  | .Nil, .Nil => some .eq
  | _, _ => none

def natOfDigits : List Char → Nat → Option Nat
  | [], acc => some acc
  | c :: cs, acc =>
      if c.isDigit then natOfDigits cs (acc * 10 + (c.toNat - 48)) else none

def splitDot : List Char → List Char × Option (List Char)
  | [] => ([], none)
  | c :: rest =>
      if c = '.' then ([], some rest)
      else
        let (a, b) := splitDot rest
        (c :: a, b)

/-- `str::parse::<f64>` restricted to the scanner's decimal `NUMBER`
lexemes. -/
def parseNum (s : String) : Option ℚ :=
  match splitDot s.toList with
  | (intPart, none) =>
      if intPart = [] then none
      else (natOfDigits intPart 0).map (fun n => (n : ℚ))
  | (intPart, some fracPart) =>
      if intPart = [] ∨ fracPart = [] then none
      else
        match natOfDigits intPart 0, natOfDigits fracPart 0 with
        | some n, some f =>
            some ((n : ℚ) + (f : ℚ) / ((10 : ℚ) ^ fracPart.length))
        | _, _ => none

/-- Outcome of evaluating an expression / executing a statement
(`ValueResult`), with Rust panics explicit. -/
inductive Res where
  | ok (v : Value)
  | err (e : EvalError)
  | panicked

/-- An evaluation step: `none` is fuel exhaustion. -/
abbrev EStep := Option (Res × Store)

/-- Result of the comma expression's discard loop over the non-last items. -/
inductive SeqRes where
  | through (st : Store)
  | panickedS (st : Store)

/-- One collected argument result (`Vec<ValueResult>` entry). -/
inductive ArgItem where
  | okA (v : Value)
  | errA (e : EvalError)

/-- Result of evaluating a call's argument list. -/
inductive ArgsRes where
  | vals (rs : List ArgItem) (st : Store)
  | panickedA (st : Store)

def ArgItem.isErr : ArgItem → Bool
  | .errA _ => true
  | _ => false

/-- `x.unwrap()` on the collected results; only reached when no entry is an
error. -/
def unwrapArg : ArgItem → Value
  | .okA v => v
  | .errA _ => .Nil

def isWhileStmt : Stmt → Bool
  | .While _ _ => true
  | _ => false

/-- The `FunDecl` arm's parameter loop: define each identifier parameter to
`Nil` in the function's stack environment and collect its name. -/
def defineFnParams : Store → Nat → List Token → Store × List String
  | st, _, [] => (st, [])
  | st, cell, p :: rest =>
      if p.ttype = .IDENTIFIER then
        let st1 := memDefine st cell p.lexeme .Nil
        let (st2, ns) := defineFnParams st1 cell rest
        (st2, p.lexeme :: ns)
      else defineFnParams st cell rest

mutual

/-- `Evaluate::eval` for `Expression` (`parser/traits/evaluate.rs`) and the
nested `impl`s for the component expression types, flattened into one
function.  `env` is the `Rc<RefCell<Environment>>` handle (a store index). -/
def evalExpr (fuel : Nat) (e : Expression) (st : Store) (env : Nat) : EStep :=
  match fuel with
  | 0 => none
  | fuel+1 =>
    match e with
    | .CommaExpr items =>
      -- evaluate and discard every item except the last, then yield the last
      match evalDiscard fuel items.dropLast st env with
      | none => none
      | some (.panickedS st1) => some (.panicked, st1)
      | some (.through st1) =>
        match items.getLast? with
        | some last => evalExpr fuel last st1 env
        | none =>
            some (.err (.InvalidExpr (.CommaExpr items)
              (some "Cannot evaluate comma expression")), st1)
    | .TernExpr c tBr fBr =>
      match evalExpr fuel c st env with
      | none => none
      | some (.ok cv, st1) =>
          evalExpr fuel (if cv.isTruthy then tBr else fBr) st1 env
      | other => other
    | .BinExpr l op r =>
      let errExp := Expression.BinExpr l op r
      match evalExpr fuel l st env with
      | none => none
      | some (.err e1, st1) => some (.err e1, st1)
      | some (.panicked, st1) => some (.panicked, st1)
      | some (.ok lv, st1) =>
        match evalExpr fuel r st1 env with
        | none => none
        | some (.err e2, st2) => some (.err e2, st2)
        | some (.panicked, st2) => some (.panicked, st2)
        | some (.ok rv, st2) =>
          match op.ttype with
          | .MINUS =>
            match lv.isNumeric, rv.isNumeric with
            | some a, some b => some (.ok (.Double (a - b)), st2)
            | _, _ =>
                some (.err (.InvalidExpr errExp
                  (some "Cannot subtract this binexp")), st2)
          | .MODULUS =>
            match lv.isNumeric, rv.isNumeric with
            | some a, some b => some (.ok (.Double (ratMod a b)), st2)
            | _, _ =>
                some (.err (.InvalidExpr errExp
                  (some "Cannot apply modulo to this binexp")), st2)
          | .SLASH =>
            match lv.isNumeric, rv.isNumeric with
            | some a, some b =>
                if b = 0 then some (.err (.DivideByZero errExp), st2)
                else some (.ok (.Double (a / b)), st2)
            | _, _ =>
                some (.err (.InvalidExpr errExp
                  (some "Cannot divide this binexp")), st2)
          | .STAR =>
            match lv.isNumeric, rv.isNumeric with
            | some a, some b => some (.ok (.Double (a * b)), st2)
            | _, _ =>
                some (.err (.InvalidExpr errExp
                  (some "Cannot multiply this binexp")), st2)
          | .PLUS =>
            match lv.isNumeric, rv.isNumeric with
            | some a, some b => some (.ok (.Double (a + b)), st2)
            | _, _ =>
              match lv.isString, rv.isString with
              | some ls, some rs => some (.ok (.String (ls ++ rs)), st2)
              | some ls, none =>
                match rv.isNumeric with
                | some n => some (.ok (.String (ls ++ numToString n)), st2)
                | none =>
                    some (.err (.InvalidExpr errExp
                      (some "Cannot add this binexp")), st2)
              | none, some rs =>
                match lv.isNumeric with
                | some n => some (.ok (.String (numToString n ++ rs)), st2)
                | none =>
                    some (.err (.InvalidExpr errExp
                      (some "Cannot add this binexp")), st2)
              | none, none =>
                  some (.err (.InvalidExpr errExp
                    (some "Cannot add this binexp")), st2)
          | .GREATER =>
            match partialCmp lv rv with
            | some o => some (.ok (.Bool (o == .gt)), st2)
            | none =>
                some (.err (.InvalidExpr errExp (some "Cannot compare")), st2)
          | .GREATER_EQUAL =>
            match partialCmp lv rv with
            | some o => some (.ok (.Bool (o == .gt || o == .eq)), st2)
            | none =>
                some (.err (.InvalidExpr errExp (some "Cannot compare")), st2)
          | .LESS =>
            match partialCmp lv rv with
            | some o => some (.ok (.Bool (o == .lt)), st2)
            | none =>
                some (.err (.InvalidExpr errExp (some "Cannot compare")), st2)
          | .LESS_EQUAL =>
            match partialCmp lv rv with
            | some o => some (.ok (.Bool (o == .lt || o == .eq)), st2)
            | none =>
                some (.err (.InvalidExpr errExp (some "Cannot compare")), st2)
          | .EQUAL_EQUAL =>
            match partialCmp lv rv with
            | some o => some (.ok (.Bool (o == .eq)), st2)
            | none =>
                some (.err (.InvalidExpr errExp (some "Cannot compare")), st2)
          | .BANG_EQUAL =>
            match partialCmp lv rv with
            | some o => some (.ok (.Bool (!(o == .eq))), st2)
            | none =>
                some (.err (.InvalidExpr errExp (some "Cannot compare")), st2)
          | _ => some (.err (.InvalidExpr errExp none), st2)
    | .UnExpr op operand =>
      match evalExpr fuel operand st env with
      | none => none
      | some (.err e1, st1) => some (.err e1, st1)
      | some (.panicked, st1) => some (.panicked, st1)
      | some (.ok rv, st1) =>
        match op.ttype with
        | .BANG => some (.ok (.Bool (!rv.isTruthy)), st1)
        | .MINUS =>
          match rv with
          | .Double d => some (.ok (.Double (-d)), st1)
          | _ => some (.err (.InvalidExpr (.UnExpr op operand) none), st1)
        | _ =>
            some (.err (.InvalidExpr (.UnExpr op operand)
              (some "Cannot evaluate as unary expression")), st1)
    | .Lit t =>
      match t.ttype with
      | .STRING => some (.ok (.String t.lexeme), st)
      | .NUMBER =>
        match parseNum t.lexeme with
        | some n => some (.ok (.Double n), st)
        | none => some (.panicked, st)    -- the `.expect(...)` on parse
      | .TRUE => some (.ok (.Bool true), st)
      | .FALSE => some (.ok (.Bool false), st)
      | .NIL => some (.ok .Nil, st)
      | _ => some (.err (.InvalidExpr (.Lit t) none), st)
    | .Group inner => evalExpr fuel inner st env
    | .Assignment name right =>
      match evalExpr fuel right st env with
      | none => none
      | some (.err e1, st1) => some (.err e1, st1)
      | some (.panicked, st1) => some (.panicked, st1)
      | some (.ok rval, st1) =>
        match memPut fuel st1 env name.lexeme rval with
        | (st2, .okP) => some (.ok rval, st2)
        | (st2, .errR _) =>
            some (.err (.InvalidExpr (.Assignment name right)
              (some "Cannot assign as variable not declared. Consider declaring with `var` first ")), st2)
        | (st2, .panicked) => some (.panicked, st2)
        | (_, .fuelOut) => none
    | .Error _ => some (.err .ErrorProduction, st)
    | .Variable t =>
      match memGet fuel st env t with
      | .found (some v) => some (.ok v, st)
      | .found none =>
          some (.err (.VariableEval (.UndefinedVar t.lexeme)), st)
      | .errR e1 => some (.err (.VariableEval e1), st)
      | .panicked => some (.panicked, st)
      | .fuelOut => none
    | .LogicOr l _ r =>
      match evalExpr fuel l st env with
      | none => none
      | some (.err e1, st1) => some (.err e1, st1)
      | some (.panicked, st1) => some (.panicked, st1)
      | some (.ok lv, st1) =>
        if lv.isTruthy then some (.ok (.Bool true), st1)
        else
          match evalExpr fuel r st1 env with
          | none => none
          | some (.err e2, st2) => some (.err e2, st2)
          | some (.panicked, st2) => some (.panicked, st2)
          | some (.ok rv, st2) => some (.ok (.Bool rv.isTruthy), st2)
    | .LogicAnd l _ r =>
      match evalExpr fuel l st env with
      | none => none
      | some (.err e1, st1) => some (.err e1, st1)
      | some (.panicked, st1) => some (.panicked, st1)
      | some (.ok lv, st1) =>
        if !lv.isTruthy then some (.ok (.Bool false), st1)
        else
          match evalExpr fuel r st1 env with
          | none => none
          | some (.err e2, st2) => some (.err e2, st2)
          | some (.panicked, st2) => some (.panicked, st2)
          | some (.ok rv, st2) => some (.ok (.Bool rv.isTruthy), st2)
    | .Call callee paren args =>
      match evalExpr fuel callee st env with
      | none => none
      | some (.err e1, st1) => some (.err e1, st1)
      | some (.panicked, st1) => some (.panicked, st1)
      | some (.ok cv, st1) =>
        match evalArgs fuel args st1 env with
        | none => none
        | some (.panickedA st2) => some (.panicked, st2)
        | some (.vals rs st2) =>
          if rs.any ArgItem.isErr then some (.err .FunctionArgError, st2)
          else
            match cv with
            | .Function f => loxCallF fuel f (rs.map unwrapArg) st2
            | _ => some (.err (.FunctionCallError paren.location), st2)
termination_by structural fuel

/-- The comma expression's `for_each`: evaluate each non-last item, keep its
store effects, discard its value (errors are only printed). -/
def evalDiscard (fuel : Nat) (items : List Expression) (st : Store)
    (env : Nat) : Option SeqRes :=
  match fuel with
  | 0 => none
  | fuel+1 =>
    match items with
    | [] => some (.through st)
    | e :: rest =>
      match evalExpr fuel e st env with
      | none => none
      | some (.panicked, st1) => some (.panickedS st1)
      | some (_, st1) => evalDiscard fuel rest st1 env
termination_by structural fuel

/-- The call arm's argument loop: evaluate every argument, collecting the
individual results. -/
def evalArgs (fuel : Nat) (args : List Expression) (st : Store) (env : Nat) :
    Option ArgsRes :=
  match fuel with
  | 0 => none
  | fuel+1 =>
    match args with
    | [] => some (.vals [] st)
    | a :: rest =>
      match evalExpr fuel a st env with
      | none => none
      | some (.panicked, st1) => some (.panickedA st1)
      | some (.ok v, st1) =>
        match evalArgs fuel rest st1 env with
        | some (.vals rs st2) => some (.vals (.okA v :: rs) st2)
        | other => other
      | some (.err e1, st1) =>
        match evalArgs fuel rest st1 env with
        | some (.vals rs st2) => some (.vals (.errA e1 :: rs) st2)
        | other => other
termination_by structural fuel

/-- Modelled from the spec: `<LoxFunction as LoxCallable>::call` is absent
from this snapshot (only the trait and the call site exist).  Spec §4.3:
"evaluate all arguments …, then invoke: create a fresh scope whose parent is
the function's captured environment (not the caller's), bind parameters
positionally, execute the body's statements in that scope, and return `Nil`
if no explicit value flows out"; an arity mismatch fails the way the native
`Clock` does (`FunctionArgError`).  The REPL flag does not propagate into
calls. -/
def loxCallF (fuel : Nat) (f : LoxFunction) (argVals : List Value)
    (st : Store) : EStep :=
  match fuel with
  | 0 => none
  | fuel+1 =>
    match f with
    | .mk stackEnv _ arity body params =>
      if argVals.length ≠ arity then some (.err .FunctionArgError, st)
      else
        let callCell := st.length
        let st1 := st ++ [enclosedBy stackEnv]
        let st2 := (params.zip argVals).foldl
          (fun acc pv => memDefine acc callCell pv.1 pv.2) st1
        match executeBlockF fuel false body st2 callCell false with
        | none => none
        | some (.ok _, st3) => some (.ok .Nil, st3)
        | other => other
termination_by structural fuel

/-- `Interpreter::execute` (`interpreter/mod.rs`).  `repl` is `self.repl`;
`rcEnv` is the handle passed in; the `inside_env` scope record is only
pushed onto the store in the arms that wrap it in an `Rc` (`Block`, `If`,
`While`, `FunDecl`). -/
def executeF (fuel : Nat) (repl : Bool) (s : Stmt) (st : Store) (rcEnv : Nat)
    (insideLoop : Bool) : EStep :=
  match fuel with
  | 0 => none
  | fuel+1 =>
    let insideEnv : Env :=
      if insideLoop then loopEnclosedBy rcEnv else enclosedBy rcEnv
    match s with
    | .ExprStmt e =>
      match e with
      | .Assignment _ _ | .Variable _ =>
        match evalExpr fuel e st rcEnv with
        | none => none
        | some (.ok v, st1) =>
            if !repl then some (.ok .Nil, st1) else some (.ok v, st1)
        | other => other
      | _ => evalExpr fuel e st rcEnv
    | .Print e => evalExpr fuel e st rcEnv
    | .ErrStmt _ => some (.ok .Nil, st)
    | .Empty => some (.ok .Nil, st)
    | .Block stmts =>
        executeBlockF fuel repl stmts (st ++ [insideEnv]) st.length insideLoop
    | .IfStmt c thenB elseB =>
      match evalExpr fuel c st rcEnv with
      | none => none
      | some (.err e1, st1) => some (.err e1, st1)
      | some (.panicked, st1) => some (.panicked, st1)
      | some (.ok cv, st1) =>
        let ifElseCell := st1.length
        let st2 := st1 ++ [insideEnv]
        if cv.isTruthy then
          match executeF fuel repl thenB st2 ifElseCell insideLoop with
          | none => none
          | some (.ok v, st3) => some (.ok v, st3)
          | other => other
        else
          match elseB with
          | some eb =>
            match executeF fuel repl eb st2 ifElseCell insideLoop with
            | none => none
            | some (.ok v, st3) => some (.ok v, st3)
            | other => other
          | none => some (.ok .Nil, st2)
    | .While c body =>
        let loopCell := st.length
        let st1 := st ++ [insideEnv]
        -- assert!(inside_loop); assert!(loop_env.borrow().in_loop());
        if ¬ insideLoop then some (.panicked, st1)
        else if ¬ (cellAt st1 loopCell).inLoop then some (.panicked, st1)
        else whileLoopF fuel repl c body st1 rcEnv loopCell .Nil
    | .VarDecl name init =>
      match init with
      | some e =>
        match evalExpr fuel e st rcEnv with
        | none => none
        | some (.err e1, st1) => some (.err e1, st1)
        | some (.panicked, st1) => some (.panicked, st1)
        | some (.ok v, st1) => some (.ok .Nil, memDefine st1 rcEnv name v)
      | none => some (.ok .Nil, memDefine st rcEnv name .Nil)
    | .Break =>
        if ¬ insideLoop then some (.err .BreakWithout, st)
        else some (.ok .Break, st)
    | .FunDecl ident params body =>
        let stackCell := st.length
        let st1 := st ++ [insideEnv]
        let (st2, fnParams) := defineFnParams st1 stackCell params
        let loxFn : LoxFunction :=
          .mk stackCell ident params.length body fnParams
        some (.ok .Nil, memDefine st2 rcEnv ident.lexeme (.Function loxFn))
termination_by structural fuel

/-- The `while` arm's loop: re-evaluate the condition in the enclosing scope
each pass, run the body in the one shared loop scope, stop and yield `Nil`
when the body completes with the `Break` sentinel. -/
def whileLoopF (fuel : Nat) (repl : Bool) (c : Expression) (body : Stmt)
    (st : Store) (rcEnv : Nat) (loopCell : Nat) (val : Value) : EStep :=
  match fuel with
  | 0 => none
  | fuel+1 =>
    match evalExpr fuel c st rcEnv with
    | none => none
    | some (.err e1, st1) => some (.err e1, st1)
    | some (.panicked, st1) => some (.panicked, st1)
    | some (.ok cv, st1) =>
      if cv.isTruthy then
        match executeF fuel repl body st1 loopCell true with
        | none => none
        | some (.err e2, st2) => some (.err e2, st2)
        | some (.panicked, st2) => some (.panicked, st2)
        | some (.ok v, st2) =>
          match v with
          | .Break => some (.ok .Nil, st2)   -- return Ok(Default::default())
          | _ => whileLoopF fuel repl c body st2 rcEnv loopCell v
      else some (.ok val, st1)
termination_by structural fuel

/-- `Interpreter::execute_block`: run the statements in `subEnv`; a `Break`
value returns immediately; other values and errors are printed and the loop
continues; the block itself yields `Nil`. -/
def executeBlockF (fuel : Nat) (repl : Bool) (stmts : List Stmt) (st : Store)
    (subEnv : Nat) (insideLoop : Bool) : EStep :=
  match fuel with
  | 0 => none
  | fuel+1 =>
    match stmts with
    | [] => some (.ok .Nil, st)
    | s :: rest =>
      match executeF fuel repl s st subEnv (isWhileStmt s || insideLoop) with
      | none => none
      | some (.panicked, st1) => some (.panicked, st1)
      | some (.ok v, st1) =>
        match v with
        | .Break => some (.ok .Break, st1)
        | _ => executeBlockF fuel repl rest st1 subEnv insideLoop
      | some (.err _, st1) => executeBlockF fuel repl rest st1 subEnv insideLoop

termination_by structural fuel
end

/-- One top-level statement's logged outcome in `Interpreter::interpret`. -/
inductive StmtRes where
  | val (v : Value)
  | error (e : EvalError)

/-- The outcome of `Interpreter::interpret` over a statement list: the
per-statement log and the final store; `crashed` marks a Rust panic that
aborts the loop. -/
inductive InterpOut where
  | finished (log : List StmtRes) (st : Store)
  | crashed (log : List StmtRes) (st : Store)

/-- Prepend a log entry to an interpreter outcome. -/
def consLog (r : StmtRes) : Option InterpOut → Option InterpOut
  | some (.finished log st) => some (.finished (r :: log) st)
  | some (.crashed log st) => some (.crashed (r :: log) st)
  | none => none

/-- `Interpreter::interpret` (`interpreter/mod.rs`): execute each top-level
statement against `env` (`self.env`), report errors and keep going. -/
def interpretF (fuel : Nat) (repl : Bool) (stmts : List Stmt) (st : Store)
    (env : Nat) : Option InterpOut :=
  match fuel with
  | 0 => none
  | fuel+1 =>
    match stmts with
    | [] => some (.finished [] st)
    | s :: rest =>
      let step : EStep :=
        match s with
        | .ExprStmt _ => executeF fuel repl s st env false
        | .Print e => evalExpr fuel e st env
        | .ErrStmt _ => some (.ok .Nil, st)
        | .Empty => some (.ok .Nil, st)
        | .Block blockStmts =>
            executeBlockF fuel repl blockStmts (st ++ [enclosedBy env])
              st.length false
        | .IfStmt _ _ _ => executeF fuel repl s st env false
        | .VarDecl name init =>
          match init with
          | some e =>
            match evalExpr fuel e st env with
            | none => none
            | some (.err e1, st1) => some (.err e1, st1)   -- reported, `continue`
            | some (.panicked, st1) => some (.panicked, st1)
            | some (.ok v, st1) => some (.ok .Nil, memDefine st1 env name v)
          | none => some (.ok .Nil, memDefine st env name .Nil)
        | .While _ _ => executeF fuel repl s st env true
        | .Break => some (.err .BreakWithout, st)
        | .FunDecl _ _ _ => executeF fuel repl s st env false
      match step with
      | none => none
      | some (.panicked, st1) => some (.crashed [] st1)
      | some (.ok v, st1) => consLog (.val v) (interpretF fuel repl rest st1 env)
      | some (.err e1, st1) =>
          consLog (.error e1) (interpretF fuel repl rest st1 env)

/-! ### Parser (`parser/mod.rs`) -/

/-- The `Parser` struct's mutable state: the remaining token iterator, the
`current` counter, the `previous` cache, the `error_production` list and the
`parser_corrupt` flag. -/
structure ParserState where
  tokens : List Token
  current : Nat
  previous : Option Token
  errProd : List Token
  corrupt : Bool

/-- `Parser::new`. -/
def initParser (tokens : List Token) : ParserState :=
  ⟨tokens, 0, none, [], false⟩

/-- Result of a `Result`-typed parser production, with Rust panics
explicit. -/
inductive PRes (α : Type) where
  | ok (a : α)
  | errP (e : ParserError)
  | panicked

abbrev PStep (α : Type) := Option (PRes α × ParserState)

/-- Result of a parser function whose Rust return type is a plain value
(`Stmt`, `Vec<Stmt>`): no error can propagate out of it. -/
inductive POut (α : Type) where
  | ok (a : α)
  | panicked

abbrev PStepT (α : Type) := Option (POut α × ParserState)

/-- `Parser::is_at_end`: the peeked token is `EOF`. -/
def isAtEnd (ps : ParserState) : Bool :=
  match ps.tokens with
  | t :: _ => t.ttype = .EOF
  | [] => false

/-- `Parser::peek`. -/
def peekT (ps : ParserState) : Option Token := ps.tokens.head?

/-- `Parser::advance`: consume the peeked token unless at `EOF`; returns
(a clone of) `previous`. -/
def advanceF (ps : ParserState) : Option Token × ParserState :=
  match ps.tokens with
  | t :: rest =>
      if t.ttype = .EOF then (ps.previous, ps)
      else (some t,
        { ps with tokens := rest, current := ps.current + 1,
                  previous := some t })
  | [] => (ps.previous, ps)

/-- `Parser::matches`: advance only when the peeked token's type is in the
searchable list. -/
def matchesF (ps : ParserState) (searchable : List TokenType) :
    Bool × ParserState :=
  if isAtEnd ps then (false, ps)
  else
    match peekT ps with
    | some t =>
        if searchable.contains t.ttype then (true, (advanceF ps).2)
        else (false, ps)
    | none => (false, ps)

/-- `self.previous.take()`. -/
def takePrev (ps : ParserState) : Option Token × ParserState :=
  (ps.previous, { ps with previous := none })

/-- `Parser::consume`. -/
def consumeF (ps : ParserState) (expected : TokenType) :
    PRes (Option Token) × ParserState :=
  match peekT ps with
  | some t =>
      if t.ttype = expected then
        let (r, ps1) := advanceF ps
        (.ok r, ps1)
      else if t.ttype ≠ .EOF then (.errP (.InvalidToken (some t)), ps)
      else (.errP .UnexpectedEOF, ps)
  | none => (.errP .ExpectedExpression, ps)

/-- The statement-starting keywords `synchronize` stops at. -/
def syncKeyword : TokenType → Bool
  | .CLASSKW | .FUN | .VAR | .FOR | .IF | .WHILE | .PRINT | .RETURN => true
  | _ => false

/-- `previous` holds a semicolon (the statement-boundary test in
`synchronize`). -/
def prevIsSemicolon (ps : ParserState) : Bool :=
  match ps.previous with
  | some t => t.ttype = TokenType.SEMICOLON
  | none => false

/-- The peeked token starts a new statement (the keyword test in
`synchronize`). -/
def peekIsSyncKeyword (ps : ParserState) : Bool :=
  match peekT ps with
  | some t => syncKeyword t.ttype
  | none => false

/-- The loop inside `Parser::synchronize`. -/
def syncLoopF : Nat → ParserState → Option ParserState
  | 0, _ => none
  | fuel+1, ps =>
    if isAtEnd ps then some ps
    else if prevIsSemicolon ps then some ps
    else if peekIsSyncKeyword ps then some ps
    else syncLoopF fuel (advanceF ps).2

/-- `Parser::synchronize`: advance once, then discard tokens until a
statement boundary. -/
def synchronizeF (fuel : Nat) (ps : ParserState) : Option ParserState :=
  syncLoopF fuel (advanceF ps).2

/-- `Literal::new`: only primary token types build a literal. -/
def litNew (t : Token) : Option Token :=
  if t.ttype.isPrimary then some t else none

/-- `UnaryExpr::new`. -/
def unExprNew (op : Token) (operand : Expression) : Option Expression :=
  match op.ttype with
  | .MINUS | .BANG => some (.UnExpr op operand)
  | _ => none

/-- The guard of the loop in `Parser::block`:
`peek() = Some(x) && x != '}' && !is_at_end()`. -/
def blockGuard (ps : ParserState) : Bool :=
  match peekT ps with
  | some x => !(x.ttype == TokenType.RIGHT_BRACE) && !(isAtEnd ps)
  | none => false

mutual

/-- `Parser::primary`. -/
def primaryF (fuel : Nat) (ps : ParserState) : PStep Expression :=
  match fuel with
  | 0 => none
  | fuel+1 =>
    let (m1, ps1) := matchesF ps [.IDENTIFIER]
    if m1 then
      match takePrev ps1 with
      | (some t, ps2) => some (.ok (.Variable t), ps2)
      | (none, ps2) => some (.panicked, ps2)
    else
      let (m2, ps2) := matchesF ps1 [.FALSE, .TRUE, .NIL, .NUMBER, .STRING]
      if m2 then
        match ps2.previous with
        | none => some (.panicked, ps2)
        | some p =>
          let ps3 :=
            match peekT ps2 with
            | some pk =>
                if pk.ttype = .LEFT_PAREN ∨ pk.ttype = .LEFT_BRACE
                    ∨ pk.ttype = .LEFT_SQUARE then
                  { ps2 with corrupt := true, errProd := ps2.errProd ++ [p] }
                else ps2
            | none => ps2
          match takePrev ps3 with
          | (some pt, ps4) =>
            match litNew pt with
            | some lt => some (.ok (.Lit lt), ps4)
            | none => some (.panicked, ps4)
          | (none, ps4) => some (.panicked, ps4)
      else
        let (m3, ps3) := matchesF ps2 [.LEFT_PAREN]
        if m3 then
          match expressionF fuel ps3 with
          | none => none
          | some (.errP e, ps4) => some (.errP e, ps4)
          | some (.panicked, ps4) => some (.panicked, ps4)
          | some (.ok ex, ps4) =>
            match consumeF ps4 .RIGHT_PAREN with
            | (.ok r, ps5) =>
              match r with
              | some _ => some (.ok (.Group ex), ps5)
              | none => some (.panicked, ps5)
            | (.errP e, ps5) => some (.errP e, ps5)
            | (.panicked, ps5) => some (.panicked, ps5)
        else
          let ps4 := { ps3 with corrupt := true }
          if !(isAtEnd ps4) then
            let (m4, ps5) := matchesF ps4 [.PLUS, .MINUS, .SLASH, .STAR,
              .EQUAL_EQUAL, .BANG_EQUAL, .EQUAL, .LESS, .GREATER,
              .LESS_EQUAL, .GREATER_EQUAL]
            if m4 then
              match ps5.previous with
              | some pt =>
                  some (.errP (.InvalidToken (some pt)),
                    { ps5 with errProd := ps5.errProd ++ [pt] })
              | none => some (.panicked, ps5)
            else some (.errP .ExpectedExpression, ps5)
          else some (.errP .ExpectedExpression, ps4)
termination_by structural fuel

/-- The error-production loop in `Parser::factor` (`threshold = 10`). -/
def factorRecoverF (fuel : Nat) (counter : Nat) (ps : ParserState) :
    PStep Expression :=
  match fuel with
  | 0 => none
  | fuel+1 =>
    match primaryF fuel ps with
    | none => none
    | some (.ok e, ps1) => some (.ok e, ps1)
    | some (.panicked, ps1) => some (.panicked, ps1)
    | some (.errP e, ps1) =>
      let c2 := counter + 1
      if c2 = 10 then some (.errP e, ps1)
      else factorRecoverF fuel c2 ps1
termination_by structural fuel

/-- `Parser::unary`. -/
def unaryF (fuel : Nat) (ps : ParserState) : PStep Expression :=
  match fuel with
  | 0 => none
  | fuel+1 =>
    let (m, ps1) := matchesF ps [.MINUS, .BANG]
    if m then
      match takePrev ps1 with
      | (none, ps2) => some (.panicked, ps2)
      | (some op, ps2) =>
        match unaryF fuel ps2 with
        | none => none
        | some (.errP e, ps3) => some (.errP e, ps3)
        | some (.panicked, ps3) => some (.panicked, ps3)
        | some (.ok rightExpr, ps3) =>
          match unExprNew op rightExpr with
          | some u => some (.ok u, ps3)
          | none => some (.panicked, ps3)
    else primaryF fuel ps1
termination_by structural fuel

/-- The `while matches([STAR, SLASH, MODULUS])` loop of `Parser::factor`. -/
def factorLoopF (fuel : Nat) (acc : Expression) (ps : ParserState) :
    PStep Expression :=
  match fuel with
  | 0 => none
  | fuel+1 =>
    let (m, ps1) := matchesF ps [.STAR, .SLASH, .MODULUS]
    if m then
      match takePrev ps1 with
      | (none, ps2) => some (.panicked, ps2)
      | (some op, ps2) =>
        match unaryF fuel ps2 with
        | none => none
        | some (.errP e, ps3) => some (.errP e, ps3)
        | some (.panicked, ps3) => some (.panicked, ps3)
        | some (.ok right, ps3) => factorLoopF fuel (.BinExpr acc op right) ps3
    else some (.ok acc, ps1)
termination_by structural fuel

/-- `Parser::factor`, including the error production for a missing left
operand (recovered only from `InvalidToken`). -/
def factorF (fuel : Nat) (ps : ParserState) : PStep Expression :=
  match fuel with
  | 0 => none
  | fuel+1 =>
    match unaryF fuel ps with
    | none => none
    | some (.ok e, ps1) => factorLoopF fuel e ps1
    | some (.panicked, ps1) => some (.panicked, ps1)
    | some (.errP pe, ps1) =>
      match pe with
      | .InvalidToken _ =>
        match factorRecoverF fuel 1 ps1 with
        | none => none
        | some (.ok e, ps2) => factorLoopF fuel e ps2
        | some (.errP e2, ps2) => some (.errP e2, ps2)
        | some (.panicked, ps2) => some (.panicked, ps2)
      | _ => some (.errP pe, ps1)
termination_by structural fuel

/-- The `while matches([MINUS, PLUS])` loop of `Parser::term`. -/
def termLoopF (fuel : Nat) (acc : Expression) (ps : ParserState) :
    PStep Expression :=
  match fuel with
  | 0 => none
  | fuel+1 =>
    let (m, ps1) := matchesF ps [.MINUS, .PLUS]
    if m then
      match takePrev ps1 with
      | (none, ps2) => some (.panicked, ps2)
      | (some op, ps2) =>
        match factorF fuel ps2 with
        | none => none
        | some (.errP e, ps3) => some (.errP e, ps3)
        | some (.panicked, ps3) => some (.panicked, ps3)
        | some (.ok right, ps3) => termLoopF fuel (.BinExpr acc op right) ps3
    else some (.ok acc, ps1)
termination_by structural fuel

/-- `Parser::term`. -/
def termF (fuel : Nat) (ps : ParserState) : PStep Expression :=
  match fuel with
  | 0 => none
  | fuel+1 =>
    match factorF fuel ps with
    | none => none
    | some (.ok e, ps1) => termLoopF fuel e ps1
    | other => other
termination_by structural fuel

/-- The comparison-operator loop of `Parser::comparison`. -/
def comparisonLoopF (fuel : Nat) (acc : Expression) (ps : ParserState) :
    PStep Expression :=
  match fuel with
  | 0 => none
  | fuel+1 =>
    let (m, ps1) := matchesF ps [.LESS, .LESS_EQUAL, .GREATER, .GREATER_EQUAL]
    if m then
      match takePrev ps1 with
      | (none, ps2) => some (.panicked, ps2)
      | (some op, ps2) =>
        match termF fuel ps2 with
        | none => none
        | some (.errP e, ps3) => some (.errP e, ps3)
        | some (.panicked, ps3) => some (.panicked, ps3)
        | some (.ok right, ps3) =>
            comparisonLoopF fuel (.BinExpr acc op right) ps3
    else some (.ok acc, ps1)
termination_by structural fuel

/-- `Parser::comparison`. -/
def comparisonF (fuel : Nat) (ps : ParserState) : PStep Expression :=
  match fuel with
  | 0 => none
  | fuel+1 =>
    match termF fuel ps with
    | none => none
    | some (.ok e, ps1) => comparisonLoopF fuel e ps1
    | other => other
termination_by structural fuel

/-- The `(!=|==)` loop of `Parser::equality`. -/
def equalityLoopF (fuel : Nat) (acc : Expression) (ps : ParserState) :
    PStep Expression :=
  match fuel with
  | 0 => none
  | fuel+1 =>
    let (m, ps1) := matchesF ps [.BANG_EQUAL, .EQUAL_EQUAL]
    if m then
      match takePrev ps1 with
      | (none, ps2) => some (.panicked, ps2)
      | (some op, ps2) =>
        match comparisonF fuel ps2 with
        | none => none
        | some (.errP e, ps3) => some (.errP e, ps3)
        | some (.panicked, ps3) => some (.panicked, ps3)
        | some (.ok right, ps3) =>
            equalityLoopF fuel (.BinExpr acc op right) ps3
    else some (.ok acc, ps1)
termination_by structural fuel

/-- `Parser::equality`, including the error-production recovery branch that
synchronizes, clears the cache and restarts from `comma_expression`. -/
def equalityF (fuel : Nat) (ps : ParserState) : PStep Expression :=
  match fuel with
  | 0 => none
  | fuel+1 =>
    match comparisonF fuel ps with
    | none => none
    | some (.ok e, ps1) => equalityLoopF fuel e ps1
    | some (.panicked, ps1) => some (.panicked, ps1)
    | some (.errP pe, ps1) =>
      if ps1.errProd.length > 0 then
        match synchronizeF fuel ps1 with
        | none => none
        | some ps2 => commaExpressionF fuel { ps2 with errProd := [] }
      else some (.errP pe, ps1)
termination_by structural fuel

/-- The `and` loop of `Parser::and`. -/
def andLoopF (fuel : Nat) (acc : Expression) (ps : ParserState) :
    PStep Expression :=
  match fuel with
  | 0 => none
  | fuel+1 =>
    let (m, ps1) := matchesF ps [.AND]
    if m then
      match takePrev ps1 with
      | (none, ps2) => some (.panicked, ps2)
      | (some op, ps2) =>
        match equalityF fuel ps2 with
        | none => none
        | some (.errP e, ps3) => some (.errP e, ps3)
        | some (.panicked, ps3) => some (.panicked, ps3)
        | some (.ok right, ps3) => andLoopF fuel (.LogicAnd acc op right) ps3
    else some (.ok acc, ps1)
termination_by structural fuel

/-- `Parser::and`. -/
def andExprF (fuel : Nat) (ps : ParserState) : PStep Expression :=
  match fuel with
  | 0 => none
  | fuel+1 =>
    match equalityF fuel ps with
    | none => none
    | some (.ok e, ps1) => andLoopF fuel e ps1
    | other => other
termination_by structural fuel

/-- The `or` loop of `Parser::or`. -/
def orLoopF (fuel : Nat) (acc : Expression) (ps : ParserState) :
    PStep Expression :=
  match fuel with
  | 0 => none
  | fuel+1 =>
    let (m, ps1) := matchesF ps [.OR]
    if m then
      match takePrev ps1 with
      | (none, ps2) => some (.panicked, ps2)
      | (some op, ps2) =>
        match andExprF fuel ps2 with
        | none => none
        | some (.errP e, ps3) => some (.errP e, ps3)
        | some (.panicked, ps3) => some (.panicked, ps3)
        | some (.ok right, ps3) => orLoopF fuel (.LogicOr acc op right) ps3
    else some (.ok acc, ps1)
termination_by structural fuel

/-- `Parser::or`. -/
def orExprF (fuel : Nat) (ps : ParserState) : PStep Expression :=
  match fuel with
  | 0 => none
  | fuel+1 =>
    match andExprF fuel ps with
    | none => none
    | some (.ok e, ps1) => orLoopF fuel e ps1
    | other => other
termination_by structural fuel

/-- `Parser::assignment`: parse the left side as an expression; on `=`,
parse the right side and require the left side to be a bare `Variable`. -/
def assignmentF (fuel : Nat) (ps : ParserState) : PStep Expression :=
  match fuel with
  | 0 => none
  | fuel+1 =>
    match orExprF fuel ps with
    | none => none
    | some (.errP e, ps1) => some (.errP e, ps1)
    | some (.panicked, ps1) => some (.panicked, ps1)
    | some (.ok lval, ps1) =>
      let (m, ps2) := matchesF ps1 [.EQUAL]
      if m then
        match takePrev ps2 with
        | (none, ps3) => some (.panicked, ps3)
        | (some _equal, ps3) =>
          match expressionF fuel ps3 with
          | none => none
          | some (.errP e, ps4) => some (.errP e, ps4)
          | some (.panicked, ps4) => some (.panicked, ps4)
          | some (.ok rval, ps4) =>
            match lval with
            | .Variable t => some (.ok (.Assignment t rval), ps4)
            | _ => some (.errP .InvalidAssignmentTarget, ps4)
      else some (.ok lval, ps2)
termination_by structural fuel

/-- `Parser::ternary`. -/
def ternaryF (fuel : Nat) (ps : ParserState) : PStep Expression :=
  match fuel with
  | 0 => none
  | fuel+1 =>
    match assignmentF fuel ps with
    | none => none
    | some (.errP e, ps1) => some (.errP e, ps1)
    | some (.panicked, ps1) => some (.panicked, ps1)
    | some (.ok cond, ps1) =>
      let (m, ps2) := matchesF ps1 [.TERNARYC]
      if m then
        match expressionF fuel ps2 with
        | none => none
        | some (.errP e, ps3) => some (.errP e, ps3)
        | some (.panicked, ps3) => some (.panicked, ps3)
        | some (.ok lEx, ps3) =>
          let (m2, ps4) := matchesF ps3 [.TERNARYE]
          if m2 then
            match expressionF fuel ps4 with
            | none => none
            | some (.errP e, ps5) => some (.errP e, ps5)
            | some (.panicked, ps5) => some (.panicked, ps5)
            | some (.ok rEx, ps5) =>
                some (.ok (.TernExpr cond lEx rEx), ps5)
          else some (.errP .ExpectedExpression, ps4)
      else some (.ok cond, ps2)
termination_by structural fuel

/-- `Parser::expression`. -/
def expressionF (fuel : Nat) (ps : ParserState) : PStep Expression :=
  match fuel with
  | 0 => none
  | fuel+1 => ternaryF fuel ps
termination_by structural fuel

/-- The `while matches([COMMA])` loop of `Parser::comma_expression`;
`acc` is `expr_list`. -/
def commaLoopF (fuel : Nat) (acc : List Expression) (ps : ParserState) :
    PStep Expression :=
  match fuel with
  | 0 => none
  | fuel+1 =>
    let (m, ps1) := matchesF ps [.COMMA]
    if m then
      match expressionF fuel ps1 with
      | none => none
      | some (.errP e, ps2) => some (.errP e, ps2)
      | some (.panicked, ps2) => some (.panicked, ps2)
      | some (.ok nxt, ps2) => commaLoopF fuel (acc ++ [nxt]) ps2
    else
      if acc.length > 1 then some (.ok (.CommaExpr acc), ps1)
      else
        match acc.getLast? with
        | some e => some (.ok e, ps1)
        | none => some (.panicked, ps1)
termination_by structural fuel

/-- `Parser::comma_expression`. -/
def commaExpressionF (fuel : Nat) (ps : ParserState) : PStep Expression :=
  match fuel with
  | 0 => none
  | fuel+1 =>
    match expressionF fuel ps with
    | none => none
    | some (.errP e, ps1) => some (.errP e, ps1)
    | some (.panicked, ps1) => some (.panicked, ps1)
    | some (.ok e, ps1) => commaLoopF fuel [e] ps1
termination_by structural fuel

/-- `Parser::parse_expression` (also `Parser::run`). -/
def parseExpressionF (fuel : Nat) (ps : ParserState) : PStep Expression :=
  match fuel with
  | 0 => none
  | fuel+1 => commaExpressionF fuel ps

/-- `Parser::var_declaration`. -/
def varDeclarationF (fuel : Nat) (ps : ParserState) : PStep Stmt :=
  match fuel with
  | 0 => none
  | fuel+1 =>
    let (m, ps1) := matchesF ps [.IDENTIFIER]
    if m then
      match takePrev ps1 with
      | (none, ps2) => some (.panicked, ps2)
      | (some nameTok, ps2) =>
        let (m2, ps3) := matchesF ps2 [.EQUAL]
        if m2 then
          match expressionF fuel ps3 with
          | none => none
          | some (.errP e, ps4) => some (.errP e, ps4)
          | some (.panicked, ps4) => some (.panicked, ps4)
          | some (.ok ini, ps4) =>
            match consumeF ps4 .SEMICOLON with
            | (.ok _, ps5) =>
              match takePrev ps5 with
              | (some _, ps6) =>
                  some (.ok (.VarDecl nameTok.lexeme (some ini)), ps6)
              | (none, ps6) => some (.panicked, ps6)
            | (.errP e, ps5) => some (.errP e, ps5)
            | (.panicked, ps5) => some (.panicked, ps5)
        else
          match consumeF ps3 .SEMICOLON with
          | (.ok _, ps4) => some (.ok (.VarDecl nameTok.lexeme none), ps4)
          | (.errP e, ps4) => some (.errP e, ps4)
          | (.panicked, ps4) => some (.panicked, ps4)
    else
      match synchronizeF fuel ps1 with
      | none => none
      | some ps2 =>
          some (.errP (.IllegalStmt (some "Missing variable identifer")), ps2)

/-- The `let stmt = if … else …` chain inside `Parser::statement`. -/
def stmtProductionF (fuel : Nat) (ps : ParserState) : PStep Stmt :=
  match fuel with
  | 0 => none
  | fuel+1 =>
    let (mp, ps1) := matchesF ps [.PRINT]
    if mp then printStatementF fuel ps1
    else
      let (mb, ps2) := matchesF ps1 [.LEFT_BRACE]
      if mb then blockStatementF fuel ps2
      else
        let (mi, ps3) := matchesF ps2 [.IF]
        if mi then ifStatementF fuel ps3
        else
          let (mw, ps4) := matchesF ps3 [.WHILE]
          if mw then whileStatementF fuel ps4
          else expressionStatementF fuel ps4
termination_by structural fuel

/-- `Parser::statement`: convert any production error into an `ErrStmt`
after synchronizing. -/
def statementF (fuel : Nat) (ps : ParserState) : PStepT Stmt :=
  match fuel with
  | 0 => none
  | fuel+1 =>
    let (mc, ps1) := matchesF ps [.COMMENT, .MULTI_LINE_COMMENT]
    if mc then some (.ok .Empty, ps1)
    else
      match stmtProductionF fuel ps1 with
      | none => none
      | some (.ok s, ps2) => some (.ok s, ps2)
      | some (.panicked, ps2) => some (.panicked, ps2)
      | some (.errP e, ps2) =>
        match synchronizeF fuel ps2 with
        | none => none
        | some ps3 => some (.ok (stmtOfError e), ps3)
termination_by structural fuel

/-- `Parser::print_statement`. -/
def printStatementF (fuel : Nat) (ps : ParserState) : PStep Stmt :=
  match fuel with
  | 0 => none
  | fuel+1 =>
    match parseExpressionF fuel ps with
    | none => none
    | some (.errP e, ps1) => some (.errP e, ps1)
    | some (.panicked, ps1) => some (.panicked, ps1)
    | some (.ok v, ps1) =>
      match consumeF ps1 .SEMICOLON with
      | (.ok _, ps2) => some (.ok (.Print v), ps2)
      | (.errP e, ps2) => some (.errP e, ps2)
      | (.panicked, ps2) => some (.panicked, ps2)

/-- `Parser::expression_statement`. -/
def expressionStatementF (fuel : Nat) (ps : ParserState) : PStep Stmt :=
  match fuel with
  | 0 => none
  | fuel+1 =>
    match parseExpressionF fuel ps with
    | none => none
    | some (.errP e, ps1) => some (.errP e, ps1)
    | some (.panicked, ps1) => some (.panicked, ps1)
    | some (.ok v, ps1) =>
      match consumeF ps1 .SEMICOLON with
      | (.ok _, ps2) => some (.ok (.ExprStmt v), ps2)
      | (.errP e, ps2) => some (.errP e, ps2)
      | (.panicked, ps2) => some (.panicked, ps2)

/-- `Parser::block_statement`. -/
def blockStatementF (fuel : Nat) (ps : ParserState) : PStep Stmt :=
  match fuel with
  | 0 => none
  | fuel+1 =>
    match blockF fuel ps with
    | none => none
    | some (.ok stmts, ps1) => some (.ok (.Block stmts), ps1)
    | some (.errP e, ps1) => some (.errP e, ps1)
    | some (.panicked, ps1) => some (.panicked, ps1)
termination_by structural fuel

/-- `Parser::block`. -/
def blockF (fuel : Nat) (ps : ParserState) : PStep (List Stmt) :=
  match fuel with
  | 0 => none
  | fuel+1 => blockLoopF fuel [] ps
termination_by structural fuel

/-- The collect loop of `Parser::block`, then `consume('}')`. -/
def blockLoopF (fuel : Nat) (acc : List Stmt) (ps : ParserState) :
    PStep (List Stmt) :=
  match fuel with
  | 0 => none
  | fuel+1 =>
    if blockGuard ps then
      match collectF fuel ps with
      | none => none
      | some (.panicked, ps1) => some (.panicked, ps1)
      | some (.ok s, ps1) => blockLoopF fuel (acc ++ [s]) ps1
    else
      match consumeF ps .RIGHT_BRACE with
      | (.ok _, ps1) => some (.ok acc, ps1)
      | (.errP e, ps1) => some (.errP e, ps1)
      | (.panicked, ps1) => some (.panicked, ps1)
termination_by structural fuel

/-- `Parser::if_statement`. -/
def ifStatementF (fuel : Nat) (ps : ParserState) : PStep Stmt :=
  match fuel with
  | 0 => none
  | fuel+1 =>
    match consumeF ps .LEFT_PAREN with
    | (.errP e, ps1) => some (.errP e, ps1)
    | (.panicked, ps1) => some (.panicked, ps1)
    | (.ok _, ps1) =>
      match expressionF fuel ps1 with
      | none => none
      | some (.errP e, ps2) => some (.errP e, ps2)
      | some (.panicked, ps2) => some (.panicked, ps2)
      | some (.ok cond, ps2) =>
        match consumeF ps2 .RIGHT_PAREN with
        | (.errP e, ps3) => some (.errP e, ps3)
        | (.panicked, ps3) => some (.panicked, ps3)
        | (.ok _, ps3) =>
          match collectF fuel ps3 with
          | none => none
          | some (.panicked, ps4) => some (.panicked, ps4)
          | some (.ok thenS, ps4) =>
            let (me, ps5) := matchesF ps4 [.ELSE]
            if me then
              match collectF fuel ps5 with
              | none => none
              | some (.panicked, ps6) => some (.panicked, ps6)
              | some (.ok elseS, ps6) =>
                  some (.ok (.IfStmt cond thenS (some elseS)), ps6)
            else some (.ok (.IfStmt cond thenS none), ps5)
termination_by structural fuel

/-- `Parser::while_statement`. -/
def whileStatementF (fuel : Nat) (ps : ParserState) : PStep Stmt :=
  match fuel with
  | 0 => none
  | fuel+1 =>
    match consumeF ps .LEFT_PAREN with
    | (.errP e, ps1) => some (.errP e, ps1)
    | (.panicked, ps1) => some (.panicked, ps1)
    | (.ok _, ps1) =>
      match expressionF fuel ps1 with
      | none => none
      | some (.errP e, ps2) => some (.errP e, ps2)
      | some (.panicked, ps2) => some (.panicked, ps2)
      | some (.ok cond, ps2) =>
        match consumeF ps2 .RIGHT_PAREN with
        | (.errP e, ps3) => some (.errP e, ps3)
        | (.panicked, ps3) => some (.panicked, ps3)
        | (.ok _, ps3) =>
          match collectF fuel ps3 with
          | none => none
          | some (.panicked, ps4) => some (.panicked, ps4)
          | some (.ok body, ps4) => some (.ok (.While cond body), ps4)
termination_by structural fuel

/-- `Parser::collect`: a `var` declaration (errors become `ErrStmt` via
`err.into()`), otherwise a statement. -/
def collectF (fuel : Nat) (ps : ParserState) : PStepT Stmt :=
  match fuel with
  | 0 => none
  | fuel+1 =>
    let (mv, ps1) := matchesF ps [.VAR]
    if mv then
      match varDeclarationF fuel ps1 with
      | none => none
      | some (.ok d, ps2) => some (.ok d, ps2)
      | some (.errP e, ps2) => some (.ok (stmtOfError e), ps2)
      | some (.panicked, ps2) => some (.panicked, ps2)
    else statementF fuel ps1
termination_by structural fuel

/-- The `while !is_at_end` loop of `Parser::parse`. -/
def parseLoopF (fuel : Nat) (acc : List Stmt) (ps : ParserState) :
    PStepT (List Stmt) :=
  match fuel with
  | 0 => none
  | fuel+1 =>
    if !(isAtEnd ps) then
      match collectF fuel ps with
      | none => none
      | some (.panicked, ps1) => some (.panicked, ps1)
      | some (.ok s, ps1) => parseLoopF fuel (acc ++ [s]) ps1
    else some (.ok acc, ps)
termination_by structural fuel

/-- `Parser::parse`. -/
def parseF (fuel : Nat) (ps : ParserState) : PStepT (List Stmt) :=
  match fuel with
  | 0 => none
  | fuel+1 => parseLoopF fuel [] ps

end

/-- The scanner's token stream for the input `"1+2, 3-23, 4/5"` (the scanner
is an external collaborator, spec §6). -/
def c9Tokens : List Token :=
  [⟨.NUMBER, "1", 1, 1⟩, ⟨.PLUS, "+", 1, 2⟩, ⟨.NUMBER, "2", 1, 3⟩,
   ⟨.COMMA, ",", 1, 4⟩, ⟨.NUMBER, "3", 1, 6⟩, ⟨.MINUS, "-", 1, 7⟩,
   ⟨.NUMBER, "23", 1, 8⟩, ⟨.COMMA, ",", 1, 10⟩, ⟨.NUMBER, "4", 1, 12⟩,
   ⟨.SLASH, "/", 1, 13⟩, ⟨.NUMBER, "5", 1, 14⟩, ⟨.EOF, "", 1, 15⟩]

/-- `1+2` as parsed. -/
def c9e1 : Expression :=
  .BinExpr (.Lit ⟨.NUMBER, "1", 1, 1⟩) ⟨.PLUS, "+", 1, 2⟩
    (.Lit ⟨.NUMBER, "2", 1, 3⟩)

/-- `3-23` as parsed. -/
def c9e2 : Expression :=
  .BinExpr (.Lit ⟨.NUMBER, "3", 1, 6⟩) ⟨.MINUS, "-", 1, 7⟩
    (.Lit ⟨.NUMBER, "23", 1, 8⟩)

/-- `4/5` as parsed. -/
def c9e3 : Expression :=
  .BinExpr (.Lit ⟨.NUMBER, "4", 1, 12⟩) ⟨.SLASH, "/", 1, 13⟩
    (.Lit ⟨.NUMBER, "5", 1, 14⟩)

/-- A list of expressions evaluates in sequence, each succeeding, threading
the store; the fuel mirrors the per-element decrement of the comma
expression's discard loop. -/
inductive EvalsSeq (env : Nat) : Nat → List Expression → Store → List Value →
    Store → Prop where
  | nil (fuel : Nat) (st : Store) : EvalsSeq env (fuel+1) [] st [] st
  | cons {fuel : Nat} {e : Expression} {rest : List Expression}
      {st st1 st2 : Store} {v : Value} {vs : List Value} :
      evalExpr fuel e st env = some (.ok v, st1) →
      EvalsSeq env fuel rest st1 vs st2 →
      EvalsSeq env (fuel+1) (e :: rest) st (v :: vs) st2

/-! ### Termination interface for `Parser::parse` -/

/-- The token list contains an `EOF` token (in particular any sequence
terminated by one). -/
def hasEOF : List Token → Bool
  | [] => false
  | t :: rest => t.ttype == TokenType.EOF || hasEOF rest

/-- The parser's progress measure: remaining tokens plus the error
production cache (`primary` only grows the cache while consuming, and
`equality`'s recovery clears it, so the sum never increases). -/
def psMeasure (ps : ParserState) : Nat :=
  ps.tokens.length + ps.errProd.length

/-- The step did not panic (`Result`-typed productions). -/
def notPanicP {α : Type} : PRes α → Prop
  | .panicked => False
  | _ => True

/-- The step did not panic (value-typed productions). -/
def notPanicT {α : Type} : POut α → Prop
  | .panicked => False
  | _ => True

/-- A parser step completed (no fuel exhaustion), did not panic, did not
grow the measure and preserved the `EOF` sentinel. -/
def StepBound {α : Type} (res : PStep α) (ps : ParserState) : Prop :=
  ∃ r ps', res = some (r, ps') ∧ notPanicP r
    ∧ psMeasure ps' ≤ psMeasure ps ∧ hasEOF ps'.tokens = true

/-- `StepBound` for value-typed productions. -/
def StepBoundT {α : Type} (res : PStepT α) (ps : ParserState) : Prop :=
  ∃ r ps', res = some (r, ps') ∧ notPanicT r
    ∧ psMeasure ps' ≤ psMeasure ps ∧ hasEOF ps'.tokens = true

/-- Fuel sufficient for `Parser::parse` on the given tokens. -/
def parserFuel (tokens : List Token) : Nat := 100 * tokens.length + 60

/-- `StepBound`, strengthened with: on an `ok` result the measure strictly
decreased (some token was consumed). -/
def StepBoundOk {α : Type} (res : PStep α) (ps : ParserState) : Prop :=
  ∃ r ps', res = some (r, ps') ∧ notPanicP r
    ∧ psMeasure ps' ≤ psMeasure ps ∧ hasEOF ps'.tokens = true
    ∧ (∀ a, r = .ok a → psMeasure ps' < psMeasure ps)

/-- The analogue of `StepBound` for the `PStepT` productions (`statement`,
`collect`): an `ok` result, measure non-increase, `EOF` kept, and either a
strict measure decrease or ending at `EOF`. -/
def StepBoundStop {α : Type} (res : PStepT α) (ps : ParserState) : Prop :=
  ∃ a ps', res = some (.ok a, ps')
    ∧ psMeasure ps' ≤ psMeasure ps ∧ hasEOF ps'.tokens = true
    ∧ (psMeasure ps' < psMeasure ps ∨ isAtEnd ps' = true)

/-- Fuel sufficiency for the expression sub-parsers of the `parse` mutual
clique: with fuel at least a per-production rank plus `100 *` the parser
measure, each production returns (no fuel exhaustion), never panics, never
grows the measure, and preserves the `EOF` terminator. -/
def ExprClique (fuel : Nat) : Prop :=
  (∀ ps, hasEOF ps.tokens = true → 1 + 100 * psMeasure ps ≤ fuel →
    StepBound (primaryF fuel ps) ps)
  ∧ (∀ c ps, c ≤ 9 → hasEOF ps.tokens = true →
      2 * (10 - c) + 2 + 100 * psMeasure ps ≤ fuel →
      StepBound (factorRecoverF fuel c ps) ps)
  ∧ (∀ ps, hasEOF ps.tokens = true → 21 + 100 * psMeasure ps ≤ fuel →
      StepBound (unaryF fuel ps) ps)
  ∧ (∀ acc ps, hasEOF ps.tokens = true → 22 + 100 * psMeasure ps ≤ fuel →
      StepBound (factorLoopF fuel acc ps) ps)
  ∧ (∀ ps, hasEOF ps.tokens = true → 23 + 100 * psMeasure ps ≤ fuel →
      StepBound (factorF fuel ps) ps)
  ∧ (∀ acc ps, hasEOF ps.tokens = true → 24 + 100 * psMeasure ps ≤ fuel →
      StepBound (termLoopF fuel acc ps) ps)
  ∧ (∀ ps, hasEOF ps.tokens = true → 25 + 100 * psMeasure ps ≤ fuel →
      StepBound (termF fuel ps) ps)
  ∧ (∀ acc ps, hasEOF ps.tokens = true → 26 + 100 * psMeasure ps ≤ fuel →
      StepBound (comparisonLoopF fuel acc ps) ps)
  ∧ (∀ ps, hasEOF ps.tokens = true → 27 + 100 * psMeasure ps ≤ fuel →
      StepBound (comparisonF fuel ps) ps)
  ∧ (∀ acc ps, hasEOF ps.tokens = true → 28 + 100 * psMeasure ps ≤ fuel →
      StepBound (equalityLoopF fuel acc ps) ps)
  ∧ (∀ ps, hasEOF ps.tokens = true → 29 + 100 * psMeasure ps ≤ fuel →
      StepBound (equalityF fuel ps) ps)
  ∧ (∀ acc ps, hasEOF ps.tokens = true → 30 + 100 * psMeasure ps ≤ fuel →
      StepBound (andLoopF fuel acc ps) ps)
  ∧ (∀ ps, hasEOF ps.tokens = true → 31 + 100 * psMeasure ps ≤ fuel →
      StepBound (andExprF fuel ps) ps)
  ∧ (∀ acc ps, hasEOF ps.tokens = true → 32 + 100 * psMeasure ps ≤ fuel →
      StepBound (orLoopF fuel acc ps) ps)
  ∧ (∀ ps, hasEOF ps.tokens = true → 33 + 100 * psMeasure ps ≤ fuel →
      StepBound (orExprF fuel ps) ps)
  ∧ (∀ ps, hasEOF ps.tokens = true → 34 + 100 * psMeasure ps ≤ fuel →
      StepBound (assignmentF fuel ps) ps)
  ∧ (∀ ps, hasEOF ps.tokens = true → 35 + 100 * psMeasure ps ≤ fuel →
      StepBound (ternaryF fuel ps) ps)
  ∧ (∀ ps, hasEOF ps.tokens = true → 36 + 100 * psMeasure ps ≤ fuel →
      StepBound (expressionF fuel ps) ps)
  ∧ (∀ acc ps, acc ≠ [] → hasEOF ps.tokens = true →
      37 + 100 * psMeasure ps ≤ fuel →
      StepBound (commaLoopF fuel acc ps) ps)
  ∧ (∀ ps, hasEOF ps.tokens = true → 38 + 100 * psMeasure ps ≤ fuel →
      StepBound (commaExpressionF fuel ps) ps)

/-- Fuel sufficiency for the statement productions of the `parse` mutual
clique, with the extra facts needed at the loop call sites: `statement` and
`collect` always return `ok` and either consume a token or stop at `EOF`. -/
def StatClique (fuel : Nat) : Prop :=
  (∀ ps, hasEOF ps.tokens = true → 46 + 100 * psMeasure ps ≤ fuel →
    StepBound (blockStatementF fuel ps) ps)
  ∧ (∀ ps, hasEOF ps.tokens = true → 45 + 100 * psMeasure ps ≤ fuel →
      StepBound (blockF fuel ps) ps)
  ∧ (∀ acc ps, hasEOF ps.tokens = true → 44 + 100 * psMeasure ps ≤ fuel →
      StepBound (blockLoopF fuel acc ps) ps)
  ∧ (∀ ps, hasEOF ps.tokens = true → 40 + 100 * psMeasure ps ≤ fuel →
      StepBound (ifStatementF fuel ps) ps)
  ∧ (∀ ps, hasEOF ps.tokens = true → 40 + 100 * psMeasure ps ≤ fuel →
      StepBound (whileStatementF fuel ps) ps)
  ∧ (∀ ps, hasEOF ps.tokens = true → 41 + 100 * psMeasure ps ≤ fuel →
      StepBoundOk (stmtProductionF fuel ps) ps)
  ∧ (∀ ps, hasEOF ps.tokens = true → 42 + 100 * psMeasure ps ≤ fuel →
      StepBoundStop (statementF fuel ps) ps)
  ∧ (∀ ps, hasEOF ps.tokens = true → 43 + 100 * psMeasure ps ≤ fuel →
      StepBoundStop (collectF fuel ps) ps)

-- ======================= end of definitions =======================

/-! ## Helper lemmas -/

theorem cellAt_set_self :
    ∀ (st : Store) (i : Nat) (e : Env), i < st.length →
      cellAt (setCell st i e) i = e
  | [], i, _, h => absurd h (by simp)
  | _ :: _, 0, _, _ => rfl
  | _ :: st, i+1, e, h =>
      cellAt_set_self st i e (Nat.lt_of_succ_lt_succ (by simpa using h))

theorem lookup_insert (m : List (String × Value)) (n : String) (v : Value) :
    lookupVal (insertVal m n v) n = some v := by
  induction m with
  | nil => simp [insertVal, lookupVal]
  | cons kv rest ih =>
      obtain ⟨k, w⟩ := kv
      by_cases h : k = n <;> simp [insertVal, lookupVal, h, ih]

theorem cellAt_append_self :
    ∀ (st : Store) (e : Env), cellAt (st ++ [e]) st.length = e
  | [], _ => rfl
  | _ :: st, e => cellAt_append_self st e

/-- If the spec-side resolution finds the name bound to `Nil`, `Memory::get`
returns the `Ok(None)` marker. -/
theorem resolve_nil_get (fuel : Nat) (st : Store) (cell : Nat) (tok : Token)
    (h : resolveF fuel st cell tok.lexeme = some (some .Nil)) :
    memGet fuel st cell tok = .found none := by
  induction fuel generalizing cell with
  | zero => simp [resolveF] at h
  | succ n ih =>
    unfold resolveF at h
    unfold memGet
    cases hv : lookupVal (cellAt st cell).values tok.lexeme with
    | some v =>
      rw [hv] at h
      simp only [Option.some.injEq] at h
      subst h
      simp [hv, Value.isNil]
    | none =>
      rw [hv] at h
      simp only [hv]
      cases he : (cellAt st cell).enclosing with
      | some encl =>
        rw [he] at h
        simp only [he]
        rw [ih encl h]
      | none => rw [he] at h; simp at h

/-- If the spec-side resolution exhausts the chain, `Memory::get` either
fails with `UncaughtReference` (when the lookup starts at the global scope)
or panics (the `swap` branch / the `is_global` assert). -/
theorem resolve_none_get (fuel : Nat) (st : Store) (cell : Nat) (tok : Token)
    (h : resolveF fuel st cell tok.lexeme = some none) :
    memGet fuel st cell tok
        = .errR (.UncaughtReference tok
            ("variable '" ++ tok.lexeme ++ "' is not defined"))
      ∨ memGet fuel st cell tok = .panicked := by
  induction fuel generalizing cell with
  | zero => simp [resolveF] at h
  | succ n ih =>
    unfold resolveF at h
    unfold memGet
    cases hv : lookupVal (cellAt st cell).values tok.lexeme with
    | some v => rw [hv] at h; simp at h
    | none =>
      rw [hv] at h
      simp only [hv]
      cases he : (cellAt st cell).enclosing with
      | some encl =>
        rw [he] at h
        simp only [he]
        rcases ih encl h with h2 | h2 <;> rw [h2] <;> exact Or.inr rfl
      | none =>
        simp only [he]
        by_cases hg : (cellAt st cell).isGlobal
        · simp [hg, hv]
        · simp [hg]

/-! ## Claim theorems -/

/-- C2: the claim says `put` must mutate the nearest enclosing scope that
already contains the name, and on failure must leave every scope's bindings
unchanged.  The code violates both: on the chain `c2Store` (current scope
empty → parent binds `x` → empty global), `put("x", 2)` fails with
`UndefinedVar` even though the parent scope binds `x` — the cell-swapping
walk checks the current scope, then the grandparent, and never the parent —
and as a side effect the walk permutes the cell contents, emptying the
parent scope's binding map. -/
theorem put_middle_scope_failing_input :
    (memPut 10 c2Store 0 "x" (.Double 2)).2 = .errR (.UndefinedVar "x")
      ∧ (cellAt (memPut 10 c2Store 0 "x" (.Double 2)).1 1).values = [] := by
  constructor <;> rfl

/-- C3: `define(x, v)` followed by `get(x)` on the same scope succeeds and
returns `v` — `Memory::get` encodes the value `Nil` as `Ok(None)` (the
"declared but uninitialized" marker), so the returned payload decodes to `v`
via `Option.getD · Nil`. -/
theorem define_then_get_returns_value (st : Store) (cell : Nat) (tok : Token)
    (v : Value) (fuel : Nat) (h : cell < st.length) :
    ∃ r, memGet (fuel+1) (memDefine st cell tok.lexeme v) cell tok = .found r
        ∧ r.getD .Nil = v := by
  have hcell : cellAt (memDefine st cell tok.lexeme v) cell
      = { cellAt st cell with
          values := insertVal (cellAt st cell).values tok.lexeme v } := by
    unfold memDefine
    exact cellAt_set_self st cell _ h
  refine ⟨if v.isNil then none else some v, ?_, ?_⟩
  · show memGet (fuel+1) (memDefine st cell tok.lexeme v) cell tok = _
    unfold memGet
    rw [hcell]
    simp only [lookup_insert]
    cases v <;> simp [Value.isNil]
  · cases v <;> simp [Value.isNil]

/-- Witness for C3 at a concrete input: a one-cell global store, name `x`,
value `1.0`. -/
theorem define_then_get_returns_value_witness :
    ∃ r, memGet 1 (memDefine [Env.base] 0 "x" (.Double 1)) 0
          ⟨.IDENTIFIER, "x", 0, 0⟩ = .found r ∧ r.getD .Nil = .Double 1 :=
  define_then_get_returns_value [Env.base] 0 ⟨.IDENTIFIER, "x", 0, 0⟩
    (.Double 1) 0 (by simp)

/-- C4: evaluating a variable whose resolved binding is `Nil` fails with the
"used before initialization" error `VariableEval (UndefinedVar _)`; when the
name is bound in no scope of the chain, any error the evaluation produces is
the distinct variant `VariableEval (UncaughtReference _ _)`. -/
theorem variable_uninitialized_vs_undeclared (fuel : Nat) (st : Store)
    (env : Nat) (t : Token) :
    (resolveF fuel st env t.lexeme = some (some .Nil) →
      evalExpr (fuel+1) (.Variable t) st env
        = some (.err (.VariableEval (.UndefinedVar t.lexeme)), st))
    ∧ (resolveF fuel st env t.lexeme = some none →
        ∀ e st', evalExpr (fuel+1) (.Variable t) st env = some (.err e, st') →
          ∃ msg, e = .VariableEval (.UncaughtReference t msg))
    ∧ (∀ s tk msg, EvalError.VariableEval (.UndefinedVar s)
        ≠ EvalError.VariableEval (.UncaughtReference tk msg)) := by
  refine ⟨?_, ?_, ?_⟩
  · intro h
    have hg := resolve_nil_get fuel st env t h
    simp only [evalExpr]
    rw [hg]
  · intro h e st' he
    rcases resolve_none_get fuel st env t h with hg | hg <;>
      simp only [evalExpr] at he <;> rw [hg] at he
    · simp only [Option.some.injEq, Prod.mk.injEq, Res.err.injEq] at he
      exact ⟨_, he.1.symm⟩
    · simp at he
  · intro s tk msg h
    injection h with h2
    exact RuntimeError.noConfusion h2

/-- Witness for C4: `var x;` then reading `x` (global scope stores `Nil`)
fails with `UndefinedVar`, while reading the never-declared `y` fails with
`UncaughtReference`. -/
theorem variable_uninitialized_vs_undeclared_witness :
    evalExpr 2 (.Variable ⟨.IDENTIFIER, "x", 0, 0⟩)
        [⟨[("x", .Nil)], none, true, false⟩] 0
      = some (.err (.VariableEval (.UndefinedVar "x")),
          [⟨[("x", .Nil)], none, true, false⟩])
    ∧ ∀ e st', evalExpr 2 (.Variable ⟨.IDENTIFIER, "y", 0, 0⟩)
        [⟨[("x", .Nil)], none, true, false⟩] 0 = some (.err e, st') →
        ∃ msg, e = .VariableEval (.UncaughtReference ⟨.IDENTIFIER, "y", 0, 0⟩ msg) :=
  ⟨(variable_uninitialized_vs_undeclared 1 _ 0 _).1 rfl,
   (variable_uninitialized_vs_undeclared 1 _ 0 _).2.1 rfl⟩

/-- The `while` arm's loop never hands an `ok` result holding the `Break`
sentinel to its caller (given the accumulator is not `Break`, which holds at
entry where it is `Nil`). -/
theorem whileLoop_ok_not_break (fuel : Nat) :
    ∀ (repl : Bool) (c : Expression) (b : Stmt) (st : Store) (env lc : Nat)
      (val v : Value) (st' : Store), val ≠ .Break →
      whileLoopF fuel repl c b st env lc val = some (.ok v, st') →
      v ≠ .Break := by
  induction fuel with
  | zero =>
    intro repl c b st env lc val v st' hval h
    simp [whileLoopF] at h
  | succ n ih =>
    intro repl c b st env lc val v st' hval h
    simp only [whileLoopF] at h
    cases hc : evalExpr n c st env with
    | none => rw [hc] at h; simp at h
    | some p =>
      obtain ⟨r, st1⟩ := p
      rw [hc] at h
      cases r with
      | err e => simp at h
      | panicked => simp at h
      | ok cv =>
        cases ht : cv.isTruthy with
        | true =>
          simp only [ht, if_true] at h
          cases hb : executeF n repl b st1 lc true with
          | none => rw [hb] at h; simp at h
          | some q =>
            obtain ⟨r2, st2⟩ := q
            rw [hb] at h
            cases r2 with
            | err e => simp at h
            | panicked => simp at h
            | ok v2 =>
              cases v2 with
              | Break =>
                simp only [Option.some.injEq, Prod.mk.injEq, Res.ok.injEq] at h
                intro hv
                rw [hv] at h
                exact Value.noConfusion h.1
              | Double d => exact ih repl c b st2 env lc _ v st' (by simp) h
              | Bool bb => exact ih repl c b st2 env lc _ v st' (by simp) h
              | String s => exact ih repl c b st2 env lc _ v st' (by simp) h
              | Nil => exact ih repl c b st2 env lc _ v st' (by simp) h
              | Function f => exact ih repl c b st2 env lc _ v st' (by simp) h
        | false =>
          simp only [ht, Bool.false_eq_true, if_false] at h
          simp only [Option.some.injEq, Prod.mk.injEq, Res.ok.injEq] at h
          intro hv
          rw [hv] at h
          exact hval h.1

/-- C5: (i) a `While` statement never completes with the `Break` sentinel —
the loop absorbs it; (ii) when an iteration's body completes with `Break`,
the whole `While` yields `Nil` at exactly the body's final state; (iii)
`execute_block` forwards a `Break` from any statement upward immediately,
skipping the rest of the block. -/
theorem while_absorbs_break :
    (∀ (fuel : Nat) (repl : Bool) (c : Expression) (b : Stmt) (st : Store)
        (env : Nat) (il : Bool) (v : Value) (st' : Store),
        executeF fuel repl (.While c b) st env il = some (.ok v, st') →
        v ≠ .Break)
    ∧ (∀ (g : Nat) (repl : Bool) (c : Expression) (b : Stmt) (st : Store)
        (env : Nat) (cv : Value) (st2 st3 : Store),
        evalExpr g c (st ++ [loopEnclosedBy env]) env = some (.ok cv, st2) →
        cv.isTruthy = true →
        executeF g repl b st2 st.length true = some (.ok .Break, st3) →
        executeF (g+2) repl (.While c b) st env true = some (.ok .Nil, st3))
    ∧ (∀ (g : Nat) (repl : Bool) (s : Stmt) (rest : List Stmt) (st : Store)
        (sub : Nat) (il : Bool) (st2 : Store),
        executeF g repl s st sub (isWhileStmt s || il) = some (.ok .Break, st2) →
        executeBlockF (g+1) repl (s :: rest) st sub il
          = some (.ok .Break, st2)) := by
  have hkey : ∀ (n : Nat) (repl : Bool) (c : Expression) (b : Stmt)
      (st : Store) (env : Nat),
      executeF (n+1) repl (.While c b) st env true
        = whileLoopF n repl c b (st ++ [loopEnclosedBy env]) env st.length
            .Nil := by
    intro n repl c b st env
    simp only [executeF]
    simp only [if_true, eq_self_iff_true, cellAt_append_self, loopEnclosedBy]
    simp
  refine ⟨?_, ?_, ?_⟩
  · intro fuel repl c b st env il v st' h
    cases fuel with
    | zero => simp [executeF] at h
    | succ n =>
      cases il with
      | false => simp [executeF] at h
      | true =>
        rw [hkey] at h
        exact whileLoop_ok_not_break n repl c b _ env st.length .Nil v st'
          (by simp) h
  · intro g repl c b st env cv st2 st3 hc ht hb
    show executeF (g+1+1) repl (.While c b) st env true = _
    rw [hkey]
    simp only [whileLoopF]
    rw [hc]
    dsimp only
    rw [if_pos ht]
    rw [hb]
  · intro g repl s rest st sub il st2 hb
    simp only [executeBlockF]
    rw [hb]

/-- Witness for C5 at a concrete input: `while (true) break;` yields `Nil`
from the whole construct at the state where the body broke. -/
theorem while_absorbs_break_witness :
    executeF 3 false (.While (.Lit ⟨.TRUE, "true", 0, 0⟩) .Break) [Env.base]
        0 true
      = some (.ok .Nil, [Env.base, loopEnclosedBy 0]) :=
  while_absorbs_break.2.1 1 false _ .Break [Env.base] 0 (.Bool true) _ _
    rfl rfl rfl

/-- C6: a `break` executed while not inside any loop fails with the
`BreakWithout` error (the spec's `BreakOutsideLoop`), and in
`Interpreter::interpret` this error only accounts for that one statement:
the remaining top-level statements are interpreted exactly as they would
have been. -/
theorem break_outside_loop_errors_and_continues :
    (∀ (fuel : Nat) (repl : Bool) (st : Store) (env : Nat),
      executeF (fuel+1) repl .Break st env false
        = some (.err .BreakWithout, st))
    ∧ (∀ (fuel : Nat) (repl : Bool) (rest : List Stmt) (st : Store) (env : Nat),
      interpretF (fuel+1) repl (.Break :: rest) st env
        = consLog (.error .BreakWithout) (interpretF fuel repl rest st env)) := by
  constructor
  · intro fuel repl st env; rfl
  · intro fuel repl rest st env; rfl

/-- C7: a division whose operands evaluate to numbers fails with
`DivideByZero` exactly when the divisor is `0`, and otherwise yields the
quotient as a `Double` (in the rational model of `f64`, so no infinity can
arise). -/
theorem divide_by_zero_iff (fuel : Nat) (l r : Expression) (op : Token)
    (st st1 st2 : Store) (env : Nat) (a b : ℚ)
    (hop : op.ttype = .SLASH)
    (hl : evalExpr fuel l st env = some (.ok (.Double a), st1))
    (hr : evalExpr fuel r st1 env = some (.ok (.Double b), st2)) :
    (evalExpr (fuel+1) (.BinExpr l op r) st env
        = some (.err (.DivideByZero (.BinExpr l op r)), st2) ↔ b = 0)
    ∧ (b ≠ 0 → evalExpr (fuel+1) (.BinExpr l op r) st env
        = some (.ok (.Double (a / b)), st2)) := by
  have hstep : evalExpr (fuel+1) (.BinExpr l op r) st env
      = if b = 0 then some (.err (.DivideByZero (.BinExpr l op r)), st2)
        else some (.ok (.Double (a / b)), st2) := by
    simp only [evalExpr]
    rw [hl]
    dsimp only
    rw [hr]
    dsimp only
    rw [hop]
    rfl
  constructor
  · rw [hstep]
    constructor
    · intro h
      by_contra hb
      rw [if_neg hb] at h
      simp only [Option.some.injEq, Prod.mk.injEq] at h
      exact absurd h.1 (by simp)
    · intro h; rw [if_pos h]
  · intro hb; rw [hstep, if_neg hb]

/-- Witness for C7 at concrete inputs: `4 / 0` fails with `DivideByZero`,
`4 / 5` yields `0.8`. -/
theorem divide_by_zero_iff_witness :
    evalExpr 2 (.BinExpr (.Lit ⟨.NUMBER, "4", 0, 0⟩) ⟨.SLASH, "/", 0, 0⟩
        (.Lit ⟨.NUMBER, "0", 0, 0⟩)) [Env.base] 0
      = some (.err (.DivideByZero (.BinExpr (.Lit ⟨.NUMBER, "4", 0, 0⟩)
          ⟨.SLASH, "/", 0, 0⟩ (.Lit ⟨.NUMBER, "0", 0, 0⟩))), [Env.base])
    ∧ evalExpr 2 (.BinExpr (.Lit ⟨.NUMBER, "4", 0, 0⟩) ⟨.SLASH, "/", 0, 0⟩
        (.Lit ⟨.NUMBER, "5", 0, 0⟩)) [Env.base] 0
      = some (.ok (.Double 0.8), [Env.base]) := by
  constructor
  · exact (divide_by_zero_iff 1 (.Lit ⟨.NUMBER, "4", 0, 0⟩)
      (.Lit ⟨.NUMBER, "0", 0, 0⟩) ⟨.SLASH, "/", 0, 0⟩ [Env.base] [Env.base]
      [Env.base] 0 4 0 rfl rfl rfl).1.mpr rfl
  · have h := (divide_by_zero_iff 1 (.Lit ⟨.NUMBER, "4", 0, 0⟩)
      (.Lit ⟨.NUMBER, "5", 0, 0⟩) ⟨.SLASH, "/", 0, 0⟩ [Env.base] [Env.base]
      [Env.base] 0 4 5 rfl rfl rfl).2 (by norm_num)
    rw [h]
    norm_num

/-- C8: logical `and` / `or` short-circuit — when the left operand already
decides the result, the whole expression evaluates to that boolean at the
left operand's final state, and the result is unchanged if the right operand
is replaced by any other expression (so none of its effects or errors can
occur). -/
theorem logical_short_circuit (fuel : Nat) (l r r2 : Expression) (op : Token)
    (st st1 : Store) (env : Nat) (v : Value)
    (hl : evalExpr fuel l st env = some (.ok v, st1)) :
    (v.isTruthy = false →
      evalExpr (fuel+1) (.LogicAnd l op r) st env
          = some (.ok (.Bool false), st1)
      ∧ evalExpr (fuel+1) (.LogicAnd l op r) st env
          = evalExpr (fuel+1) (.LogicAnd l op r2) st env)
    ∧ (v.isTruthy = true →
      evalExpr (fuel+1) (.LogicOr l op r) st env
          = some (.ok (.Bool true), st1)
      ∧ evalExpr (fuel+1) (.LogicOr l op r) st env
          = evalExpr (fuel+1) (.LogicOr l op r2) st env) := by
  constructor
  · intro hv
    have h1 : evalExpr (fuel+1) (.LogicAnd l op r) st env
        = some (.ok (.Bool false), st1) := by
      simp only [evalExpr]; rw [hl]; dsimp only; rw [hv]; rfl
    have h2 : evalExpr (fuel+1) (.LogicAnd l op r2) st env
        = some (.ok (.Bool false), st1) := by
      simp only [evalExpr]; rw [hl]; dsimp only; rw [hv]; rfl
    exact ⟨h1, by rw [h1, h2]⟩
  · intro hv
    have h1 : evalExpr (fuel+1) (.LogicOr l op r) st env
        = some (.ok (.Bool true), st1) := by
      simp only [evalExpr]; rw [hl]; dsimp only; rw [hv]; rfl
    have h2 : evalExpr (fuel+1) (.LogicOr l op r2) st env
        = some (.ok (.Bool true), st1) := by
      simp only [evalExpr]; rw [hl]; dsimp only; rw [hv]; rfl
    exact ⟨h1, by rw [h1, h2]⟩

/-- Witness for C8 at concrete inputs: `false and <undeclared>` and
`true or <undeclared>` both succeed — the failing right operand is never
evaluated. -/
theorem logical_short_circuit_witness :
    evalExpr 2 (.LogicAnd (.Lit ⟨.FALSE, "false", 0, 0⟩) ⟨.AND, "and", 0, 0⟩
        (.Variable ⟨.IDENTIFIER, "zzz", 0, 0⟩)) [Env.base] 0
      = some (.ok (.Bool false), [Env.base])
    ∧ evalExpr 2 (.LogicOr (.Lit ⟨.TRUE, "true", 0, 0⟩) ⟨.OR, "or", 0, 0⟩
        (.Variable ⟨.IDENTIFIER, "zzz", 0, 0⟩)) [Env.base] 0
      = some (.ok (.Bool true), [Env.base]) :=
  ⟨((logical_short_circuit 1 (.Lit ⟨.FALSE, "false", 0, 0⟩)
      (.Variable ⟨.IDENTIFIER, "zzz", 0, 0⟩)
      (.Variable ⟨.IDENTIFIER, "zzz", 0, 0⟩) ⟨.AND, "and", 0, 0⟩ [Env.base]
      [Env.base] 0 (.Bool false) rfl).1 rfl).1,
   ((logical_short_circuit 1 (.Lit ⟨.TRUE, "true", 0, 0⟩)
      (.Variable ⟨.IDENTIFIER, "zzz", 0, 0⟩)
      (.Variable ⟨.IDENTIFIER, "zzz", 0, 0⟩) ⟨.OR, "or", 0, 0⟩ [Env.base]
      [Env.base] 0 (.Bool true) rfl).2 rfl).1⟩

/-- C10: a logical `and` / `or` expression that evaluates successfully
always yields a `Bool` (the truthiness of the combination), never the raw
operand value; in particular `nil or "x"` yields `true`, not `"x"`. -/
theorem logical_ops_return_bool (fuel : Nat) (l r : Expression) (op : Token)
    (st st' : Store) (env : Nat) (res : Value) :
    ((evalExpr fuel (.LogicAnd l op r) st env = some (.ok res, st') →
        ∃ b, res = .Bool b)
      ∧ (evalExpr fuel (.LogicOr l op r) st env = some (.ok res, st') →
        ∃ b, res = .Bool b))
    ∧ evalExpr 2 (.LogicOr (.Lit ⟨.NIL, "nil", 0, 0⟩) ⟨.OR, "or", 0, 0⟩
        (.Lit ⟨.STRING, "x", 0, 0⟩)) [Env.base] 0
      = some (.ok (.Bool true), [Env.base]) := by
  refine ⟨⟨?_, ?_⟩, rfl⟩
  · intro h
    cases fuel with
    | zero => simp [evalExpr] at h
    | succ n =>
      simp only [evalExpr] at h
      cases hl : evalExpr n l st env with
      | none => rw [hl] at h; simp at h
      | some p =>
        obtain ⟨rl, stl⟩ := p
        rw [hl] at h
        cases rl with
        | err e => simp at h
        | panicked => simp at h
        | ok lv =>
          cases ht : lv.isTruthy with
          | true =>
            simp only [ht, Bool.not_true, Bool.false_eq_true, if_false] at h
            cases hr : evalExpr n r stl env with
            | none => rw [hr] at h; simp at h
            | some q =>
              obtain ⟨rr, str⟩ := q
              rw [hr] at h
              cases rr with
              | err e => simp at h
              | panicked => simp at h
              | ok rv =>
                simp only [Option.some.injEq, Prod.mk.injEq,
                  Res.ok.injEq] at h
                exact ⟨rv.isTruthy, h.1.symm⟩
          | false =>
            simp only [ht, Bool.not_false, if_true] at h
            simp only [Option.some.injEq, Prod.mk.injEq, Res.ok.injEq] at h
            exact ⟨false, h.1.symm⟩
  · intro h
    cases fuel with
    | zero => simp [evalExpr] at h
    | succ n =>
      simp only [evalExpr] at h
      cases hl : evalExpr n l st env with
      | none => rw [hl] at h; simp at h
      | some p =>
        obtain ⟨rl, stl⟩ := p
        rw [hl] at h
        cases rl with
        | err e => simp at h
        | panicked => simp at h
        | ok lv =>
          cases ht : lv.isTruthy with
          | true =>
            simp only [ht, if_true] at h
            simp only [Option.some.injEq, Prod.mk.injEq, Res.ok.injEq] at h
            exact ⟨true, h.1.symm⟩
          | false =>
            simp only [ht, Bool.false_eq_true, if_false] at h
            cases hr : evalExpr n r stl env with
            | none => rw [hr] at h; simp at h
            | some q =>
              obtain ⟨rr, str⟩ := q
              rw [hr] at h
              cases rr with
              | err e => simp at h
              | panicked => simp at h
              | ok rv =>
                simp only [Option.some.injEq, Prod.mk.injEq,
                  Res.ok.injEq] at h
                exact ⟨rv.isTruthy, h.1.symm⟩

/-- A successful `EvalsSeq` run is exactly what the comma expression's
discard loop computes (values dropped, store kept). -/
theorem evalsSeq_discard {env : Nat} :
    ∀ {fuel : Nat} {xs : List Expression} {st : Store} {vs : List Value}
      {st' : Store}, EvalsSeq env fuel xs st vs st' →
      evalDiscard fuel xs st env = some (.through st') := by
  intro fuel xs st vs st' h
  induction h with
  | nil fuel st => simp [evalDiscard]
  | cons he _ ih =>
      simp only [evalDiscard]
      rw [he]
      exact ih

set_option maxHeartbeats 1000000 in
/-- C9: the input `"1+2, 3-23, 4/5"` parses to a single comma expression of
the three binary items, that expression evaluates to the `Double` `0.8`
(the last item's value), and in general a comma expression whose non-last
items all evaluate (left to right, threading the store) yields exactly the
last item's evaluation. -/
theorem comma_example_and_last_value :
    parseExpressionF 20 (initParser c9Tokens)
      = some (.ok (.CommaExpr [c9e1, c9e2, c9e3]),
          ⟨[⟨.EOF, "", 1, 15⟩], 11, none, [], false⟩)
    ∧ evalExpr 12 (.CommaExpr [c9e1, c9e2, c9e3]) [Env.base] 0
        = some (.ok (.Double 0.8), [Env.base])
    ∧ (∀ (fuel env : Nat) (items : List Expression) (st stMid st2 : Store)
        (vs : List Value) (last : Expression) (lv : Value),
        EvalsSeq env fuel items.dropLast st vs stMid →
        items.getLast? = some last →
        evalExpr fuel last stMid env = some (.ok lv, st2) →
        evalExpr (fuel+1) (.CommaExpr items) st env = some (.ok lv, st2)) := by
  refine ⟨?_, ?_, ?_⟩
  · simp [parseExpressionF, commaExpressionF, expressionF, ternaryF,
      assignmentF, orExprF, orLoopF, andExprF, andLoopF, equalityF,
      equalityLoopF, comparisonF, comparisonLoopF, termF, termLoopF, factorF,
      factorLoopF, factorRecoverF, unaryF, primaryF, commaLoopF, matchesF,
      advanceF, isAtEnd, peekT, takePrev, consumeF, initParser, litNew,
      unExprNew, TokenType.isPrimary, c9Tokens, c9e1, c9e2, c9e3]
  · have h08 : (0.8 : ℚ) = 4 / 5 := by norm_num
    rw [h08]
    rfl
  · intro fuel env items st stMid st2 vs last lv hseq hlast heval
    simp only [evalExpr]
    rw [evalsSeq_discard hseq]
    dsimp only
    rw [hlast]
    exact heval

/-- Witness for C9's general conjunct at the concrete comma expression of
the claim's example. -/
theorem comma_example_and_last_value_witness :
    evalExpr 11 (.CommaExpr [c9e1, c9e2, c9e3]) [Env.base] 0
      = some (.ok (.Double (4 / 5)), [Env.base]) :=
  comma_example_and_last_value.2.2 10 0 [c9e1, c9e2, c9e3] [Env.base]
    [Env.base] [Env.base] [.Double (1 + 2), .Double (3 - 23)] c9e3 (.Double (4 / 5))
    (@EvalsSeq.cons 0 9 c9e1 [c9e2] [Env.base] [Env.base] [Env.base]
      (.Double (1 + 2)) [.Double (3 - 23)] rfl
      (@EvalsSeq.cons 0 8 c9e2 [] [Env.base] [Env.base] [Env.base]
        (.Double (3 - 23)) [] rfl (EvalsSeq.nil 7 [Env.base])))
    rfl rfl

/-- Witness for C10: the `nil or "x"` evaluation from the theorem's own
concrete conjunct produces a `Bool`. -/
theorem logical_ops_return_bool_witness :
    ∃ b, Value.Bool true = Value.Bool b :=
  (logical_ops_return_bool 2 (.Lit ⟨.NIL, "nil", 0, 0⟩)
    (.Lit ⟨.STRING, "x", 0, 0⟩) ⟨.OR, "or", 0, 0⟩ [Env.base] [Env.base] 0
    (.Bool true)).1.2
    (logical_ops_return_bool 2 (.Lit ⟨.NIL, "nil", 0, 0⟩)
      (.Lit ⟨.STRING, "x", 0, 0⟩) ⟨.OR, "or", 0, 0⟩ [Env.base] [Env.base] 0
      (.Bool true)).2

/-! ## Parser totality: helper lemmas -/

theorem hasEOF_ne_nil {ts : List Token} (h : hasEOF ts = true) : ts ≠ [] := by
  intro hnil
  rw [hnil] at h
  simp [hasEOF] at h

theorem hasEOF_tail {t : Token} {rest : List Token}
    (h : hasEOF (t :: rest) = true) (ht : ¬ t.ttype = .EOF) :
    hasEOF rest = true := by
  simp only [hasEOF, Bool.or_eq_true, beq_iff_eq] at h
  exact h.resolve_left ht

theorem not_atEnd_cons {ps : ParserState} (h : isAtEnd ps = false)
    (hE : hasEOF ps.tokens = true) :
    ∃ t rest, ps.tokens = t :: rest ∧ ¬ t.ttype = .EOF
      ∧ hasEOF rest = true := by
  cases hts : ps.tokens with
  | nil => rw [hts] at hE; simp [hasEOF] at hE
  | cons t rest =>
    refine ⟨t, rest, rfl, ?_, ?_⟩
    · intro he
      rw [isAtEnd, hts] at h
      simp [he] at h
    · rw [hts] at hE
      apply hasEOF_tail hE
      intro he
      rw [isAtEnd, hts] at h
      simp [he] at h

theorem advance_cons {ps : ParserState} {t : Token} {rest : List Token}
    (hts : ps.tokens = t :: rest) (ht : ¬ t.ttype = .EOF) :
    advanceF ps = (some t,
      { ps with tokens := rest, current := ps.current + 1,
                previous := some t }) := by
  rw [advanceF, hts]
  simp [ht]

theorem matchesF_eq_false {ps ps1 : ParserState} {L : List TokenType}
    (h : matchesF ps L = (false, ps1)) : ps1 = ps := by
  rw [matchesF] at h
  split at h
  · injection h with h1 h2; exact h2.symm
  · split at h
    · split at h
      · simp at h
      · injection h with h1 h2; exact h2.symm
    · injection h with h1 h2; exact h2.symm

theorem matchesF_eq_true {ps ps1 : ParserState} {L : List TokenType}
    (h : matchesF ps L = (true, ps1)) :
    ∃ t rest, ps.tokens = t :: rest ∧ L.contains t.ttype = true
      ∧ ¬ t.ttype = .EOF
      ∧ ps1 = { ps with tokens := rest, current := ps.current + 1,
                        previous := some t } := by
  rw [matchesF] at h
  split at h
  · simp at h
  · split at h
    · split at h
      · rename_i hne2 x0 t hpk hc
        cases hts : ps.tokens with
        | nil => rw [peekT, hts] at hpk; simp at hpk
        | cons t0 rest =>
          have ht0 : t0 = t := by
            rw [peekT, hts] at hpk
            simpa using hpk
          have hne0 : ¬ t0.ttype = .EOF := by
            intro heq
            rw [Bool.not_eq_true, isAtEnd, hts] at hne2
            simp [heq] at hne2
          refine ⟨t0, rest, rfl, ?_, hne0, ?_⟩
          · rw [ht0]; exact hc
          · rw [advance_cons hts hne0] at h
            injection h with h1 h2
            exact h2.symm
      · simp at h
    · simp at h

theorem matchesF_true_facts {ps ps1 : ParserState} {L : List TokenType}
    (h : matchesF ps L = (true, ps1)) (hE : hasEOF ps.tokens = true) :
    psMeasure ps1 + 1 = psMeasure ps ∧ hasEOF ps1.tokens = true
      ∧ ∃ t, ps1.previous = some t ∧ L.contains t.ttype = true := by
  obtain ⟨t, rest, hts, hc, hne, hps1⟩ := matchesF_eq_true h
  subst hps1
  refine ⟨?_, ?_, t, rfl, hc⟩
  · simp [psMeasure, hts]
    omega
  · rw [hts] at hE
    exact hasEOF_tail hE hne

theorem consumeF_ok {ps ps1 : ParserState} {expected : TokenType}
    {r : Option Token} (h : consumeF ps expected = (.ok r, ps1))
    (hne : ¬ expected = .EOF) :
    ∃ t rest, ps.tokens = t :: rest ∧ t.ttype = expected ∧ r = some t
      ∧ ps1 = { ps with tokens := rest, current := ps.current + 1,
                        previous := some t } := by
  rw [consumeF] at h
  split at h
  · rename_i x0 t hpk
    split at h
    · rename_i he
      cases hts : ps.tokens with
      | nil => rw [peekT, hts] at hpk; simp at hpk
      | cons t0 rest =>
        have ht0 : t0 = t := by
          rw [peekT, hts] at hpk
          simpa using hpk
        have hne0 : ¬ t0.ttype = .EOF := by
          rw [ht0, he]; exact hne
        rw [advance_cons hts hne0] at h
        dsimp only at h
        injection h with h1 h2
        injection h1 with h1
        refine ⟨t0, rest, rfl, ?_, h1.symm, h2.symm⟩
        rw [ht0]; exact he
    · split at h
      · simp at h
      · simp at h
  · simp at h

theorem consumeF_ok_facts {ps ps1 : ParserState} {expected : TokenType}
    {r : Option Token} (h : consumeF ps expected = (.ok r, ps1))
    (hne : ¬ expected = .EOF) (hE : hasEOF ps.tokens = true) :
    psMeasure ps1 + 1 = psMeasure ps ∧ hasEOF ps1.tokens = true
      ∧ r.isSome = true ∧ (∃ t, ps1.previous = some t) := by
  obtain ⟨t, rest, hts, hty, hr, hps1⟩ := consumeF_ok h hne
  subst hps1
  refine ⟨?_, ?_, ?_, t, rfl⟩
  · simp [psMeasure, hts]
    omega
  · rw [hts] at hE
    refine hasEOF_tail hE ?_
    rw [hty]; exact hne
  · rw [hr]; rfl

theorem consumeF_err {ps ps1 : ParserState} {expected : TokenType}
    {e : ParserError} (h : consumeF ps expected = (.errP e, ps1)) :
    ps1 = ps := by
  rw [consumeF] at h
  split at h
  · split at h
    · split at h
      simp at h
    · split at h
      · injection h with h1 h2; exact h2.symm
      · injection h with h1 h2; exact h2.symm
  · injection h with h1 h2; exact h2.symm

theorem consumeF_no_panic {ps ps1 : ParserState} {expected : TokenType}
    (h : consumeF ps expected = (.panicked, ps1)) : False := by
  rw [consumeF] at h
  split at h
  · split at h
    · split at h
      simp at h
    · split at h
      · simp at h
      · simp at h
  · simp at h

theorem atEnd_cons {ps : ParserState} (h : isAtEnd ps = true) :
    ∃ t rest, ps.tokens = t :: rest ∧ t.ttype = .EOF := by
  cases hts : ps.tokens with
  | nil => rw [isAtEnd, hts] at h; simp at h
  | cons t rest =>
    refine ⟨t, rest, rfl, ?_⟩
    rw [isAtEnd, hts] at h
    simpa using h

theorem consumeF_atEnd {ps : ParserState} {expected : TokenType}
    (h : isAtEnd ps = true) (hne : ¬ expected = .EOF) :
    consumeF ps expected = (.errP .UnexpectedEOF, ps) := by
  obtain ⟨t, rest, hts, hEOF⟩ := atEnd_cons h
  rw [consumeF, peekT, hts]
  have h1 : ¬ t.ttype = expected := by
    rw [hEOF]; intro hc; exact hne hc.symm
  simp [h1, hEOF]
  exact fun hc => hne hc.symm

theorem blockGuard_atEnd {ps : ParserState} (h : isAtEnd ps = true) :
    blockGuard ps = false := by
  obtain ⟨t, rest, hts, hEOF⟩ := atEnd_cons h
  rw [blockGuard, peekT, hts]
  simp [h]

theorem syncLoopF_suff :
    ∀ (fuel : Nat) (ps : ParserState), hasEOF ps.tokens = true →
      psMeasure ps + 1 ≤ fuel →
      ∃ ps', syncLoopF fuel ps = some ps'
        ∧ psMeasure ps' ≤ psMeasure ps ∧ hasEOF ps'.tokens = true
        ∧ ps'.errProd = ps.errProd
        ∧ (isAtEnd ps = true → ps' = ps) := by
  intro fuel
  induction fuel with
  | zero => intro ps _ hb; omega
  | succ n ih =>
    intro ps hE hb
    by_cases ha : isAtEnd ps
    · exact ⟨ps, by simp [syncLoopF, ha], le_refl _, hE, rfl, fun _ => rfl⟩
    · simp only [Bool.not_eq_true] at ha
      by_cases hsemi : prevIsSemicolon ps
      · refine ⟨ps, ?_, le_refl _, hE, rfl, fun h2 => rfl⟩
        simp [syncLoopF, ha, hsemi]
      · by_cases hkw : peekIsSyncKeyword ps
        · refine ⟨ps, ?_, le_refl _, hE, rfl, fun h2 => rfl⟩
          simp [syncLoopF, ha, hsemi, hkw]
        · obtain ⟨t, rest, hts, hne, hErest⟩ := not_atEnd_cons ha hE
          have hadv := advance_cons hts hne
          have hm : psMeasure (advanceF ps).2 + 1 = psMeasure ps := by
            rw [hadv]
            simp only [psMeasure, hts, List.length_cons]
            omega
          have herr : (advanceF ps).2.errProd = ps.errProd := by rw [hadv]
          obtain ⟨ps', hrun, hmono, hE', herr2, _⟩ :=
            ih (advanceF ps).2 (by rw [hadv]; exact hErest) (by omega)
          refine ⟨ps', ?_, by omega, hE', by rw [herr2, herr], fun h2 => ?_⟩
          · simp only [syncLoopF, ha, Bool.false_eq_true, if_false,
              hsemi, hkw]
            exact hrun
          · rw [h2] at ha
            simp at ha
  -- the at-end case of the final conjunct is vacuous on this branch

theorem synchronizeF_suff (fuel : Nat) (ps : ParserState)
    (hE : hasEOF ps.tokens = true) (hb : psMeasure ps + 2 ≤ fuel) :
    ∃ ps', synchronizeF fuel ps = some ps'
      ∧ psMeasure ps' ≤ psMeasure ps ∧ hasEOF ps'.tokens = true
      ∧ ps'.errProd = ps.errProd
      ∧ (isAtEnd ps = false → psMeasure ps' < psMeasure ps)
      ∧ (isAtEnd ps = true → ps' = ps) := by
  rw [synchronizeF]
  by_cases ha : isAtEnd ps
  · have hadv : (advanceF ps).2 = ps := by
      cases hts : ps.tokens with
      | nil => rw [advanceF, hts]
      | cons t rest =>
        have : t.ttype = .EOF := by
          rw [isAtEnd, hts] at ha
          simpa using ha
        rw [advanceF, hts]
        simp [this]
    rw [hadv]
    obtain ⟨ps', h1, h2, h3, h4, h5⟩ := syncLoopF_suff fuel ps hE (by omega)
    exact ⟨ps', h1, h2, h3, h4, fun hc => by rw [hc] at ha; simp at ha,
      fun _ => h5 ha⟩
  · simp only [Bool.not_eq_true] at ha
    obtain ⟨t, rest, hts, hne, hErest⟩ := not_atEnd_cons ha hE
    have hadv := advance_cons hts hne
    have hm : psMeasure (advanceF ps).2 + 1 = psMeasure ps := by
      rw [hadv]
      simp only [psMeasure, hts, List.length_cons]
      omega
    have herr : (advanceF ps).2.errProd = ps.errProd := by rw [hadv]
    obtain ⟨ps', h1, h2, h3, h4, _⟩ :=
      syncLoopF_suff fuel (advanceF ps).2 (by rw [hadv]; exact hErest)
        (by omega)
    exact ⟨ps', h1, by omega, h3, by rw [h4, herr], fun _ => by omega,
      fun hc => by rw [hc] at ha; simp at ha⟩

theorem isPrimary_of_lit_list {tt : TokenType}
    (h : [TokenType.FALSE, .TRUE, .NIL, .NUMBER, .STRING].contains tt
        = true) : tt.isPrimary = true := by
  cases tt <;> revert h <;> decide

theorem unary_op_of_list {tt : TokenType}
    (h : [TokenType.MINUS, .BANG].contains tt = true) :
    tt = .MINUS ∨ tt = .BANG := by
  cases tt <;> revert h <;> decide

theorem unExprNew_of_op {op : Token} {operand : Expression}
    (h : op.ttype = .MINUS ∨ op.ttype = .BANG) :
    unExprNew op operand = some (.UnExpr op operand) := by
  rcases h with h | h <;> rw [unExprNew, h]

theorem getLast?_some_of_ne_nil {α : Type} :
    ∀ (l : List α), l ≠ [] → ∃ a, l.getLast? = some a
  | [], h => absurd rfl h
  | [a], _ => ⟨a, rfl⟩
  | a :: b :: t, _ => by
      rw [List.getLast?_cons_cons]
      exact getLast?_some_of_ne_nil (b :: t) (by simp)

/-- Every expression production of the parser terminates within the ranked
fuel bound (induction on fuel). -/
theorem exprClique_all : ∀ fuel, ExprClique fuel := by
  intro fuel
  induction fuel with
  | zero =>
    unfold ExprClique
    exact ⟨fun ps hE hb => absurd hb (by omega),
      fun c ps h9 hE hb => absurd hb (by omega),
      fun ps hE hb => absurd hb (by omega),
      fun acc ps hE hb => absurd hb (by omega),
      fun ps hE hb => absurd hb (by omega),
      fun acc ps hE hb => absurd hb (by omega),
      fun ps hE hb => absurd hb (by omega),
      fun acc ps hE hb => absurd hb (by omega),
      fun ps hE hb => absurd hb (by omega),
      fun acc ps hE hb => absurd hb (by omega),
      fun ps hE hb => absurd hb (by omega),
      fun acc ps hE hb => absurd hb (by omega),
      fun ps hE hb => absurd hb (by omega),
      fun acc ps hE hb => absurd hb (by omega),
      fun ps hE hb => absurd hb (by omega),
      fun ps hE hb => absurd hb (by omega),
      fun ps hE hb => absurd hb (by omega),
      fun ps hE hb => absurd hb (by omega),
      fun acc ps hne hE hb => absurd hb (by omega),
      fun ps hE hb => absurd hb (by omega)⟩

  | succ n ih =>
    obtain ⟨ihPrim, ihRec, ihUn, ihFL, ihF, ihTL, ihT, ihCL, ihC, ihEL,
      ihE, ihAL, ihA, ihOL, ihO, ihAs, ihTer, ihEx, ihCoL, ihCo⟩ := ih
    unfold ExprClique
    refine ⟨?_, ?_, ?_, ?_, ?_, ?_, ?_, ?_, ?_, ?_, ?_, ?_, ?_, ?_, ?_,
      ?_, ?_, ?_, ?_, ?_⟩
    · -- primaryF
      intro ps hE hb
      simp only [primaryF]
      cases hm1 : matchesF ps [.IDENTIFIER] with
      | mk m1 ps1 =>
      try dsimp only
      cases m1 with
      | true =>
        simp only [eq_self_iff_true, if_true]
        obtain ⟨hmA, hE1, t, hprev, _⟩ := matchesF_true_facts hm1 hE
        rw [takePrev, hprev]
        try dsimp only
        have hmp : psMeasure { ps1 with previous := none } = psMeasure ps1 :=
          rfl
        exact ⟨.ok (.Variable t), { ps1 with previous := none }, rfl, trivial,
          by omega, hE1⟩
      | false =>
        have h1 := matchesF_eq_false hm1
        rw [h1]
        simp only [Bool.false_eq_true, if_false]
        cases hm2 : matchesF ps [.FALSE, .TRUE, .NIL, .NUMBER, .STRING] with
        | mk m2 ps2 =>
        try dsimp only
        cases m2 with
        | true =>
          simp only [eq_self_iff_true, if_true]
          obtain ⟨hmB, hE2, p, hprev2, hct2⟩ := matchesF_true_facts hm2 hE
          rw [hprev2]
          try dsimp only
          cases hpk : peekT ps2 with
          | none =>
            try dsimp only
            rw [takePrev, hprev2]
            try dsimp only
            rw [litNew, isPrimary_of_lit_list hct2]
            simp only [eq_self_iff_true, if_true]
            try dsimp only
            have hmp : psMeasure { ps2 with previous := none } =
                psMeasure ps2 := rfl
            exact ⟨.ok (.Lit p), { ps2 with previous := none }, rfl, trivial,
              by omega, hE2⟩
          | some pk =>
            try dsimp only
            by_cases hcond : pk.ttype = .LEFT_PAREN ∨ pk.ttype = .LEFT_BRACE
                ∨ pk.ttype = .LEFT_SQUARE
            · rw [if_pos hcond]
              rw [takePrev]
              try dsimp only
              rw [litNew, isPrimary_of_lit_list hct2]
              simp only [eq_self_iff_true, if_true]
              try dsimp only
              refine ⟨.ok (.Lit p), _, rfl, trivial, ?_, ?_⟩
              · simp only [psMeasure, List.length_append,
                  List.length_cons, List.length_nil] at hmB ⊢
                omega
              · exact hE2
            · rw [if_neg hcond]
              rw [takePrev, hprev2]
              try dsimp only
              rw [litNew, isPrimary_of_lit_list hct2]
              simp only [eq_self_iff_true, if_true]
              try dsimp only
              have hmp : psMeasure { ps2 with previous := none } =
                  psMeasure ps2 := rfl
              exact ⟨.ok (.Lit p), { ps2 with previous := none }, rfl, trivial,
                by omega, hE2⟩
        | false =>
          have h2 := matchesF_eq_false hm2
          rw [h2]
          simp only [Bool.false_eq_true, if_false]
          cases hm3 : matchesF ps [.LEFT_PAREN] with
          | mk m3 ps3 =>
          try dsimp only
          cases m3 with
          | true =>
            simp only [eq_self_iff_true, if_true]
            obtain ⟨hmC, hE3, t, hprev3, _⟩ := matchesF_true_facts hm3 hE
            obtain ⟨r, ps4, hex, hnp, hm4, hE4⟩ := ihEx ps3 hE3 (by omega)
            rw [hex]
            cases r with
            | panicked => exact hnp.elim
            | errP e =>
              try dsimp only
              exact ⟨.errP e, ps4, rfl, trivial, by omega, hE4⟩
            | ok ex =>
              try dsimp only
              cases hcon : consumeF ps4 .RIGHT_PAREN with
              | mk cr ps5 =>
              try dsimp only
              cases cr with
              | panicked => exact (consumeF_no_panic hcon).elim
              | errP e =>
                have h5 := consumeF_err hcon
                rw [h5]
                try dsimp only
                exact ⟨.errP e, ps4, rfl, trivial, by omega, hE4⟩
              | ok r0 =>
                obtain ⟨hm5, hE5, hrs, _⟩ :=
                  consumeF_ok_facts hcon (by decide) hE4
                cases r0 with
                | none => simp at hrs
                | some t3 =>
                  try dsimp only
                  exact ⟨.ok (.Group ex), ps5, rfl, trivial, by omega, hE5⟩
          | false =>
            have h3 := matchesF_eq_false hm3
            rw [h3]
            simp only [Bool.false_eq_true, if_false]
            have hmp4 : psMeasure { ps with corrupt := true } = psMeasure ps :=
              rfl
            have hE4 : hasEOF ({ ps with corrupt := true } :
                ParserState).tokens = true := hE
            cases hae : isAtEnd { ps with corrupt := true } with
            | true =>
              simp only [Bool.not_true, Bool.false_eq_true, if_false]
              exact ⟨.errP .ExpectedExpression, { ps with corrupt := true },
                rfl, trivial, by omega, hE⟩
            | false =>
              simp only [Bool.not_false, eq_self_iff_true, if_true]
              cases hm4 : matchesF { ps with corrupt := true } [.PLUS, .MINUS,
                  .SLASH, .STAR, .EQUAL_EQUAL, .BANG_EQUAL, .EQUAL, .LESS,
                  .GREATER, .LESS_EQUAL, .GREATER_EQUAL] with
              | mk m4 ps5 =>
              try dsimp only
              cases m4 with
              | true =>
                simp only [eq_self_iff_true, if_true]
                obtain ⟨hmD, hE5, pt, hprev5, _⟩ :=
                  matchesF_true_facts hm4 hE4
                rw [hprev5]
                try dsimp only
                refine ⟨.errP (.InvalidToken (some pt)), _, rfl, trivial,
                  ?_, ?_⟩
                · simp only [psMeasure, List.length_append,
                    List.length_cons, List.length_nil] at hmD ⊢
                  omega
                · exact hE5
              | false =>
                have h5 := matchesF_eq_false hm4
                rw [h5]
                simp only [Bool.false_eq_true, if_false]
                exact ⟨.errP .ExpectedExpression, { ps with corrupt := true },
                  rfl, trivial, by omega, hE⟩
    · -- factorRecoverF
      intro c ps h9 hE hb
      simp only [factorRecoverF]
      obtain ⟨r, ps1, hp, hnp, hm1, hE1⟩ := ihPrim ps hE (by omega)
      rw [hp]
      cases r with
      | panicked => exact hnp.elim
      | ok e =>
        try dsimp only
        exact ⟨.ok e, ps1, rfl, trivial, hm1, hE1⟩
      | errP e =>
        try dsimp only
        by_cases h10 : c + 1 = 10
        · rw [if_pos h10]
          exact ⟨.errP e, ps1, rfl, trivial, hm1, hE1⟩
        · rw [if_neg h10]
          obtain ⟨r2, ps2, hr2, hnp2, hm2, hE2⟩ :=
            ihRec (c + 1) ps1 (by omega) hE1 (by omega)
          exact ⟨r2, ps2, hr2, hnp2, by omega, hE2⟩
    · -- unaryF
      intro ps hE hb
      simp only [unaryF]
      cases hm : matchesF ps [.MINUS, .BANG] with
      | mk m ps1 =>
      try dsimp only
      cases m with
      | false =>
        have h1 := matchesF_eq_false hm
        rw [h1]
        simp only [Bool.false_eq_true, if_false]
        obtain ⟨r, ps2, hp, hnp, hm2, hE2⟩ := ihPrim ps hE (by omega)
        exact ⟨r, ps2, hp, hnp, hm2, hE2⟩
      | true =>
        simp only [eq_self_iff_true, if_true]
        obtain ⟨hm1, hE1, t, hprev, hct⟩ := matchesF_true_facts hm hE
        rw [takePrev, hprev]
        try dsimp only
        have hmp : psMeasure { ps1 with previous := none } = psMeasure ps1 :=
          rfl
        obtain ⟨r, ps3, hu, hnp, hm3, hE3⟩ :=
          ihUn { ps1 with previous := none } hE1 (by omega)
        rw [hu]
        cases r with
        | panicked => exact hnp.elim
        | errP e =>
          try dsimp only
          exact ⟨.errP e, ps3, rfl, trivial, by omega, hE3⟩
        | ok rightExpr =>
          try dsimp only
          rw [unExprNew_of_op (unary_op_of_list hct)]
          try dsimp only
          exact ⟨.ok (.UnExpr t rightExpr), ps3, rfl, trivial, by omega, hE3⟩
    · -- factorLoopF
      intro acc ps hE hb
      simp only [factorLoopF]
      cases hm : matchesF ps [.STAR, .SLASH, .MODULUS] with
      | mk m ps1 =>
      try dsimp only
      cases m with
      | false =>
        have h1 := matchesF_eq_false hm
        rw [h1]
        simp only [Bool.false_eq_true, if_false]
        exact ⟨.ok acc, ps, rfl, trivial, le_refl _, hE⟩
      | true =>
        simp only [eq_self_iff_true, if_true]
        obtain ⟨hm1, hE1, t, hprev, hct⟩ := matchesF_true_facts hm hE
        rw [takePrev, hprev]
        try dsimp only
        have hmp : psMeasure { ps1 with previous := none } = psMeasure ps1 :=
          rfl
        obtain ⟨r, ps3, hs, hnp, hm3, hE3⟩ :=
          ihUn { ps1 with previous := none } hE1 (by omega)
        rw [hs]
        cases r with
        | panicked => exact hnp.elim
        | errP e =>
          try dsimp only
          exact ⟨.errP e, ps3, rfl, trivial, by omega, hE3⟩
        | ok right =>
          try dsimp only
          obtain ⟨r2, ps4, hrec, hnp2, hm4, hE4⟩ :=
            ihFL (.BinExpr acc t right) ps3 hE3 (by omega)
          exact ⟨r2, ps4, hrec, hnp2, by omega, hE4⟩
    · -- factorF
      intro ps hE hb
      simp only [factorF]
      obtain ⟨r, ps1, hu, hnp, hm1, hE1⟩ := ihUn ps hE (by omega)
      rw [hu]
      cases r with
      | panicked => exact hnp.elim
      | ok e =>
        try dsimp only
        obtain ⟨r2, ps2, hl, hnp2, hm2, hE2⟩ := ihFL e ps1 hE1 (by omega)
        exact ⟨r2, ps2, hl, hnp2, by omega, hE2⟩
      | errP pe =>
        try dsimp only
        cases pe
        case InvalidToken ot =>
          try dsimp only
          obtain ⟨r2, ps2, hr2, hnp2, hm2, hE2⟩ :=
            ihRec 1 ps1 (by omega) hE1 (by omega)
          rw [hr2]
          cases r2 with
          | panicked => exact hnp2.elim
          | errP e2 =>
            try dsimp only
            exact ⟨.errP e2, ps2, rfl, trivial, by omega, hE2⟩
          | ok e =>
            try dsimp only
            obtain ⟨r3, ps3, hl, hnp3, hm3, hE3⟩ := ihFL e ps2 hE2 (by omega)
            exact ⟨r3, ps3, hl, hnp3, by omega, hE3⟩
        all_goals
          exact ⟨_, ps1, rfl, trivial, hm1, hE1⟩
    · -- termLoopF
      intro acc ps hE hb
      simp only [termLoopF]
      cases hm : matchesF ps [.MINUS, .PLUS] with
      | mk m ps1 =>
      try dsimp only
      cases m with
      | false =>
        have h1 := matchesF_eq_false hm
        rw [h1]
        simp only [Bool.false_eq_true, if_false]
        exact ⟨.ok acc, ps, rfl, trivial, le_refl _, hE⟩
      | true =>
        simp only [eq_self_iff_true, if_true]
        obtain ⟨hm1, hE1, t, hprev, hct⟩ := matchesF_true_facts hm hE
        rw [takePrev, hprev]
        try dsimp only
        have hmp : psMeasure { ps1 with previous := none } = psMeasure ps1 :=
          rfl
        obtain ⟨r, ps3, hs, hnp, hm3, hE3⟩ :=
          ihF { ps1 with previous := none } hE1 (by omega)
        rw [hs]
        cases r with
        | panicked => exact hnp.elim
        | errP e =>
          try dsimp only
          exact ⟨.errP e, ps3, rfl, trivial, by omega, hE3⟩
        | ok right =>
          try dsimp only
          obtain ⟨r2, ps4, hrec, hnp2, hm4, hE4⟩ :=
            ihTL (.BinExpr acc t right) ps3 hE3 (by omega)
          exact ⟨r2, ps4, hrec, hnp2, by omega, hE4⟩
    · -- termF
      intro ps hE hb
      simp only [termF]
      obtain ⟨r, ps1, hf, hnp, hm1, hE1⟩ := ihF ps hE (by omega)
      rw [hf]
      cases r with
      | panicked => exact hnp.elim
      | errP e =>
        try dsimp only
        exact ⟨.errP e, ps1, rfl, trivial, hm1, hE1⟩
      | ok e =>
        try dsimp only
        obtain ⟨r2, ps2, hl, hnp2, hm2, hE2⟩ := ihTL e ps1 hE1 (by omega)
        exact ⟨r2, ps2, hl, hnp2, by omega, hE2⟩
    · -- comparisonLoopF
      intro acc ps hE hb
      simp only [comparisonLoopF]
      cases hm : matchesF ps [.LESS, .LESS_EQUAL, .GREATER, .GREATER_EQUAL] with
      | mk m ps1 =>
      try dsimp only
      cases m with
      | false =>
        have h1 := matchesF_eq_false hm
        rw [h1]
        simp only [Bool.false_eq_true, if_false]
        exact ⟨.ok acc, ps, rfl, trivial, le_refl _, hE⟩
      | true =>
        simp only [eq_self_iff_true, if_true]
        obtain ⟨hm1, hE1, t, hprev, hct⟩ := matchesF_true_facts hm hE
        rw [takePrev, hprev]
        try dsimp only
        have hmp : psMeasure { ps1 with previous := none } = psMeasure ps1 :=
          rfl
        obtain ⟨r, ps3, hs, hnp, hm3, hE3⟩ :=
          ihT { ps1 with previous := none } hE1 (by omega)
        rw [hs]
        cases r with
        | panicked => exact hnp.elim
        | errP e =>
          try dsimp only
          exact ⟨.errP e, ps3, rfl, trivial, by omega, hE3⟩
        | ok right =>
          try dsimp only
          obtain ⟨r2, ps4, hrec, hnp2, hm4, hE4⟩ :=
            ihCL (.BinExpr acc t right) ps3 hE3 (by omega)
          exact ⟨r2, ps4, hrec, hnp2, by omega, hE4⟩
    · -- comparisonF
      intro ps hE hb
      simp only [comparisonF]
      obtain ⟨r, ps1, hf, hnp, hm1, hE1⟩ := ihT ps hE (by omega)
      rw [hf]
      cases r with
      | panicked => exact hnp.elim
      | errP e =>
        try dsimp only
        exact ⟨.errP e, ps1, rfl, trivial, hm1, hE1⟩
      | ok e =>
        try dsimp only
        obtain ⟨r2, ps2, hl, hnp2, hm2, hE2⟩ := ihCL e ps1 hE1 (by omega)
        exact ⟨r2, ps2, hl, hnp2, by omega, hE2⟩
    · -- equalityLoopF
      intro acc ps hE hb
      simp only [equalityLoopF]
      cases hm : matchesF ps [.BANG_EQUAL, .EQUAL_EQUAL] with
      | mk m ps1 =>
      try dsimp only
      cases m with
      | false =>
        have h1 := matchesF_eq_false hm
        rw [h1]
        simp only [Bool.false_eq_true, if_false]
        exact ⟨.ok acc, ps, rfl, trivial, le_refl _, hE⟩
      | true =>
        simp only [eq_self_iff_true, if_true]
        obtain ⟨hm1, hE1, t, hprev, hct⟩ := matchesF_true_facts hm hE
        rw [takePrev, hprev]
        try dsimp only
        have hmp : psMeasure { ps1 with previous := none } = psMeasure ps1 :=
          rfl
        obtain ⟨r, ps3, hs, hnp, hm3, hE3⟩ :=
          ihC { ps1 with previous := none } hE1 (by omega)
        rw [hs]
        cases r with
        | panicked => exact hnp.elim
        | errP e =>
          try dsimp only
          exact ⟨.errP e, ps3, rfl, trivial, by omega, hE3⟩
        | ok right =>
          try dsimp only
          obtain ⟨r2, ps4, hrec, hnp2, hm4, hE4⟩ :=
            ihEL (.BinExpr acc t right) ps3 hE3 (by omega)
          exact ⟨r2, ps4, hrec, hnp2, by omega, hE4⟩
    · -- equalityF
      intro ps hE hb
      simp only [equalityF]
      obtain ⟨r, ps1, hc, hnp, hm1, hE1⟩ := ihC ps hE (by omega)
      rw [hc]
      cases r with
      | panicked => exact hnp.elim
      | ok e =>
        try dsimp only
        obtain ⟨r2, ps2, hl, hnp2, hm2, hE2⟩ := ihEL e ps1 hE1 (by omega)
        exact ⟨r2, ps2, hl, hnp2, by omega, hE2⟩
      | errP pe =>
        try dsimp only
        by_cases hlen : ps1.errProd.length > 0
        · rw [if_pos hlen]
          obtain ⟨ps2, hsync, hm2, hE2, herr2, _⟩ :=
            synchronizeF_suff n ps1 hE1 (by omega)
          rw [hsync]
          try dsimp only
          have hm3 : psMeasure { ps2 with errProd := ([] : List Token) } =
              ps2.tokens.length := by
            simp [psMeasure]
          have hm4 : psMeasure ps2 = ps2.tokens.length + ps2.errProd.length :=
            rfl
          have hlen2 : ps2.errProd.length = ps1.errProd.length := by
            rw [herr2]
          obtain ⟨r2, ps3, hcm, hnp2, hm5, hE5⟩ :=
            ihCo { ps2 with errProd := ([] : List Token) } hE2 (by omega)
          exact ⟨r2, ps3, hcm, hnp2, by omega, hE5⟩
        · rw [if_neg hlen]
          exact ⟨.errP pe, ps1, rfl, trivial, hm1, hE1⟩
    · -- andLoopF
      intro acc ps hE hb
      simp only [andLoopF]
      cases hm : matchesF ps [.AND] with
      | mk m ps1 =>
      try dsimp only
      cases m with
      | false =>
        have h1 := matchesF_eq_false hm
        rw [h1]
        simp only [Bool.false_eq_true, if_false]
        exact ⟨.ok acc, ps, rfl, trivial, le_refl _, hE⟩
      | true =>
        simp only [eq_self_iff_true, if_true]
        obtain ⟨hm1, hE1, t, hprev, hct⟩ := matchesF_true_facts hm hE
        rw [takePrev, hprev]
        try dsimp only
        have hmp : psMeasure { ps1 with previous := none } = psMeasure ps1 :=
          rfl
        obtain ⟨r, ps3, hs, hnp, hm3, hE3⟩ :=
          ihE { ps1 with previous := none } hE1 (by omega)
        rw [hs]
        cases r with
        | panicked => exact hnp.elim
        | errP e =>
          try dsimp only
          exact ⟨.errP e, ps3, rfl, trivial, by omega, hE3⟩
        | ok right =>
          try dsimp only
          obtain ⟨r2, ps4, hrec, hnp2, hm4, hE4⟩ :=
            ihAL (.LogicAnd acc t right) ps3 hE3 (by omega)
          exact ⟨r2, ps4, hrec, hnp2, by omega, hE4⟩
    · -- andExprF
      intro ps hE hb
      simp only [andExprF]
      obtain ⟨r, ps1, hf, hnp, hm1, hE1⟩ := ihE ps hE (by omega)
      rw [hf]
      cases r with
      | panicked => exact hnp.elim
      | errP e =>
        try dsimp only
        exact ⟨.errP e, ps1, rfl, trivial, hm1, hE1⟩
      | ok e =>
        try dsimp only
        obtain ⟨r2, ps2, hl, hnp2, hm2, hE2⟩ := ihAL e ps1 hE1 (by omega)
        exact ⟨r2, ps2, hl, hnp2, by omega, hE2⟩
    · -- orLoopF
      intro acc ps hE hb
      simp only [orLoopF]
      cases hm : matchesF ps [.OR] with
      | mk m ps1 =>
      try dsimp only
      cases m with
      | false =>
        have h1 := matchesF_eq_false hm
        rw [h1]
        simp only [Bool.false_eq_true, if_false]
        exact ⟨.ok acc, ps, rfl, trivial, le_refl _, hE⟩
      | true =>
        simp only [eq_self_iff_true, if_true]
        obtain ⟨hm1, hE1, t, hprev, hct⟩ := matchesF_true_facts hm hE
        rw [takePrev, hprev]
        try dsimp only
        have hmp : psMeasure { ps1 with previous := none } = psMeasure ps1 :=
          rfl
        obtain ⟨r, ps3, hs, hnp, hm3, hE3⟩ :=
          ihA { ps1 with previous := none } hE1 (by omega)
        rw [hs]
        cases r with
        | panicked => exact hnp.elim
        | errP e =>
          try dsimp only
          exact ⟨.errP e, ps3, rfl, trivial, by omega, hE3⟩
        | ok right =>
          try dsimp only
          obtain ⟨r2, ps4, hrec, hnp2, hm4, hE4⟩ :=
            ihOL (.LogicOr acc t right) ps3 hE3 (by omega)
          exact ⟨r2, ps4, hrec, hnp2, by omega, hE4⟩
    · -- orExprF
      intro ps hE hb
      simp only [orExprF]
      obtain ⟨r, ps1, hf, hnp, hm1, hE1⟩ := ihA ps hE (by omega)
      rw [hf]
      cases r with
      | panicked => exact hnp.elim
      | errP e =>
        try dsimp only
        exact ⟨.errP e, ps1, rfl, trivial, hm1, hE1⟩
      | ok e =>
        try dsimp only
        obtain ⟨r2, ps2, hl, hnp2, hm2, hE2⟩ := ihOL e ps1 hE1 (by omega)
        exact ⟨r2, ps2, hl, hnp2, by omega, hE2⟩
    · -- assignmentF
      intro ps hE hb
      simp only [assignmentF]
      obtain ⟨r, ps1, hor, hnp, hm1, hE1⟩ := ihO ps hE (by omega)
      rw [hor]
      cases r with
      | panicked => exact hnp.elim
      | errP e =>
        try dsimp only
        exact ⟨.errP e, ps1, rfl, trivial, hm1, hE1⟩
      | ok lval =>
        try dsimp only
        cases hm : matchesF ps1 [.EQUAL] with
        | mk m ps2 =>
        try dsimp only
        cases m with
        | false =>
          have h2 := matchesF_eq_false hm
          rw [h2]
          simp only [Bool.false_eq_true, if_false]
          exact ⟨.ok lval, ps1, rfl, trivial, hm1, hE1⟩
        | true =>
          simp only [eq_self_iff_true, if_true]
          obtain ⟨hm2, hE2, t, hprev, _⟩ := matchesF_true_facts hm hE1
          rw [takePrev, hprev]
          try dsimp only
          have hmp : psMeasure { ps2 with previous := none } = psMeasure ps2 :=
            rfl
          obtain ⟨r2, ps4, hex, hnp2, hm4, hE4⟩ :=
            ihEx { ps2 with previous := none } hE2 (by omega)
          rw [hex]
          cases r2 with
          | panicked => exact hnp2.elim
          | errP e =>
            try dsimp only
            exact ⟨.errP e, ps4, rfl, trivial, by omega, hE4⟩
          | ok rval =>
            try dsimp only
            cases lval
            case Variable t2 =>
              try dsimp only
              exact ⟨.ok (.Assignment t2 rval), ps4, rfl, trivial,
                by omega, hE4⟩
            all_goals
              exact ⟨.errP .InvalidAssignmentTarget, ps4, rfl, trivial,
                by omega, hE4⟩
    · -- ternaryF
      intro ps hE hb
      simp only [ternaryF]
      obtain ⟨r, ps1, ha, hnp, hm1, hE1⟩ := ihAs ps hE (by omega)
      rw [ha]
      cases r with
      | panicked => exact hnp.elim
      | errP e =>
        try dsimp only
        exact ⟨.errP e, ps1, rfl, trivial, hm1, hE1⟩
      | ok cond =>
        try dsimp only
        cases hm : matchesF ps1 [.TERNARYC] with
        | mk m ps2 =>
        try dsimp only
        cases m with
        | false =>
          have h2 := matchesF_eq_false hm
          rw [h2]
          simp only [Bool.false_eq_true, if_false]
          exact ⟨.ok cond, ps1, rfl, trivial, hm1, hE1⟩
        | true =>
          simp only [eq_self_iff_true, if_true]
          obtain ⟨hm2, hE2, t1, hprev1, _⟩ := matchesF_true_facts hm hE1
          obtain ⟨r2, ps3, hx, hnp2, hm3, hE3⟩ := ihEx ps2 hE2 (by omega)
          rw [hx]
          cases r2 with
          | panicked => exact hnp2.elim
          | errP e =>
            try dsimp only
            exact ⟨.errP e, ps3, rfl, trivial, by omega, hE3⟩
          | ok lEx =>
            try dsimp only
            cases hm4 : matchesF ps3 [.TERNARYE] with
            | mk m2 ps4 =>
            try dsimp only
            cases m2 with
            | false =>
              have h4 := matchesF_eq_false hm4
              rw [h4]
              simp only [Bool.false_eq_true, if_false]
              exact ⟨.errP .ExpectedExpression, ps3, rfl, trivial,
                by omega, hE3⟩
            | true =>
              simp only [eq_self_iff_true, if_true]
              obtain ⟨hm5, hE5, t2, hprev2, _⟩ := matchesF_true_facts hm4 hE3
              obtain ⟨r3, ps5, hx2, hnp3, hm6, hE6⟩ := ihEx ps4 hE5 (by omega)
              rw [hx2]
              cases r3 with
              | panicked => exact hnp3.elim
              | errP e =>
                try dsimp only
                exact ⟨.errP e, ps5, rfl, trivial, by omega, hE6⟩
              | ok rEx =>
                try dsimp only
                exact ⟨.ok (.TernExpr cond lEx rEx), ps5, rfl, trivial,
                  by omega, hE6⟩
    · -- expressionF
      intro ps hE hb
      simp only [expressionF]
      obtain ⟨r, ps1, ht, hnp, hm1, hE1⟩ := ihTer ps hE (by omega)
      exact ⟨r, ps1, ht, hnp, hm1, hE1⟩
    · -- commaLoopF
      intro acc ps hacc hE hb
      simp only [commaLoopF]
      cases hm : matchesF ps [.COMMA] with
      | mk m ps1 =>
      try dsimp only
      cases m with
      | true =>
        simp only [eq_self_iff_true, if_true]
        obtain ⟨hm1, hE1, t, hprev, _⟩ := matchesF_true_facts hm hE
        obtain ⟨r, ps2, hx, hnp, hm2, hE2⟩ := ihEx ps1 hE1 (by omega)
        rw [hx]
        cases r with
        | panicked => exact hnp.elim
        | errP e =>
          try dsimp only
          exact ⟨.errP e, ps2, rfl, trivial, by omega, hE2⟩
        | ok nxt =>
          try dsimp only
          obtain ⟨r2, ps3, hrec, hnp2, hm3, hE3⟩ :=
            ihCoL (acc ++ [nxt]) ps2 (by simp) hE2 (by omega)
          exact ⟨r2, ps3, hrec, hnp2, by omega, hE3⟩
      | false =>
        have h1 := matchesF_eq_false hm
        rw [h1]
        simp only [Bool.false_eq_true, if_false]
        by_cases hlen : acc.length > 1
        · rw [if_pos hlen]
          exact ⟨.ok (.CommaExpr acc), ps, rfl, trivial, le_refl _, hE⟩
        · rw [if_neg hlen]
          obtain ⟨a, hgl⟩ := getLast?_some_of_ne_nil acc hacc
          rw [hgl]
          try dsimp only
          exact ⟨.ok a, ps, rfl, trivial, le_refl _, hE⟩
    · -- commaExpressionF
      intro ps hE hb
      simp only [commaExpressionF]
      obtain ⟨r, ps1, hx, hnp, hm1, hE1⟩ := ihEx ps hE (by omega)
      rw [hx]
      cases r with
      | panicked => exact hnp.elim
      | errP e =>
        try dsimp only
        exact ⟨.errP e, ps1, rfl, trivial, hm1, hE1⟩
      | ok e =>
        try dsimp only
        obtain ⟨r2, ps2, hl, hnp2, hm2, hE2⟩ :=
          ihCoL [e] ps1 (by simp) hE1 (by omega)
        exact ⟨r2, ps2, hl, hnp2, by omega, hE2⟩

/-- `Parser::expression` terminates within its rank bound. -/
theorem expressionF_suff (fuel : Nat) (ps : ParserState)
    (hE : hasEOF ps.tokens = true) (hb : 36 + 100 * psMeasure ps ≤ fuel) :
    StepBound (expressionF fuel ps) ps := by
  obtain ⟨_, _, _, _, _, _, _, _, _, _, _, _, _, _, _, _, _, hEx, _, _⟩ :=
    exprClique_all fuel
  exact hEx ps hE hb

/-- `Parser::comma_expression` terminates within its rank bound. -/
theorem commaExpressionF_suff (fuel : Nat) (ps : ParserState)
    (hE : hasEOF ps.tokens = true) (hb : 38 + 100 * psMeasure ps ≤ fuel) :
    StepBound (commaExpressionF fuel ps) ps := by
  obtain ⟨_, _, _, _, _, _, _, _, _, _, _, _, _, _, _, _, _, _, _, hCo⟩ :=
    exprClique_all fuel
  exact hCo ps hE hb

/-- `Parser::parse_expression` terminates within its rank bound. -/
theorem parseExpressionF_suff (fuel : Nat) (ps : ParserState)
    (hE : hasEOF ps.tokens = true) (hb : 39 + 100 * psMeasure ps ≤ fuel) :
    StepBound (parseExpressionF fuel ps) ps := by
  cases fuel with
  | zero => exact absurd hb (by omega)
  | succ n =>
    simp only [parseExpressionF]
    exact commaExpressionF_suff n ps hE (by omega)

/-- `Parser::var_declaration` terminates within its rank bound. -/
theorem varDeclarationF_suff (fuel : Nat) (ps : ParserState)
    (hE : hasEOF ps.tokens = true) (hb : 40 + 100 * psMeasure ps ≤ fuel) :
    StepBound (varDeclarationF fuel ps) ps := by
  cases fuel with
  | zero => exact absurd hb (by omega)
  | succ n =>
  simp only [varDeclarationF]
  cases hm : matchesF ps [.IDENTIFIER] with
  | mk m ps1 =>
  try dsimp only
  cases m with
  | false =>
    have h1 := matchesF_eq_false hm
    rw [h1]
    simp only [Bool.false_eq_true, if_false]
    obtain ⟨ps2, hsync, hs1, hs2, _, _, _⟩ :=
      synchronizeF_suff n ps hE (by omega)
    rw [hsync]
    try dsimp only
    exact ⟨.errP (.IllegalStmt (some "Missing variable identifer")), ps2,
      rfl, trivial, hs1, hs2⟩
  | true =>
    simp only [eq_self_iff_true, if_true]
    obtain ⟨hm1, hE1, nameTok, hprev, _⟩ := matchesF_true_facts hm hE
    rw [takePrev, hprev]
    try dsimp only
    have hmp : psMeasure { ps1 with previous := none } = psMeasure ps1 := rfl
    have hEp : hasEOF ({ ps1 with previous := none } :
        ParserState).tokens = true := hE1
    cases hm2 : matchesF { ps1 with previous := none } [.EQUAL] with
    | mk m2 ps3 =>
    try dsimp only
    cases m2 with
    | true =>
      simp only [eq_self_iff_true, if_true]
      obtain ⟨hm3, hE3, teq, hprev3, _⟩ := matchesF_true_facts hm2 hEp
      obtain ⟨r, ps4, hex, hnp, hm4, hE4⟩ :=
        expressionF_suff n ps3 hE3 (by omega)
      rw [hex]
      cases r with
      | panicked => exact hnp.elim
      | errP e =>
        try dsimp only
        exact ⟨.errP e, ps4, rfl, trivial, by omega, hE4⟩
      | ok ini =>
        try dsimp only
        cases hcon : consumeF ps4 .SEMICOLON with
        | mk cr ps5 =>
        try dsimp only
        cases cr with
        | panicked => exact (consumeF_no_panic hcon).elim
        | errP e =>
          have h5 := consumeF_err hcon
          rw [h5]
          try dsimp only
          exact ⟨.errP e, ps4, rfl, trivial, by omega, hE4⟩
        | ok r0 =>
          obtain ⟨hm5, hE5, hrs, t5, hprev5⟩ :=
            consumeF_ok_facts hcon (by decide) hE4
          try dsimp only
          rw [takePrev, hprev5]
          try dsimp only
          have hmp5 : psMeasure { ps5 with previous := none } =
              psMeasure ps5 := rfl
          exact ⟨.ok (.VarDecl nameTok.lexeme (some ini)),
            { ps5 with previous := none }, rfl, trivial, by omega, hE5⟩
    | false =>
      have h2 := matchesF_eq_false hm2
      rw [h2]
      simp only [Bool.false_eq_true, if_false]
      cases hcon : consumeF { ps1 with previous := none } .SEMICOLON with
      | mk cr ps4 =>
      try dsimp only
      cases cr with
      | panicked => exact (consumeF_no_panic hcon).elim
      | errP e =>
        have h5 := consumeF_err hcon
        rw [h5]
        try dsimp only
        exact ⟨.errP e, { ps1 with previous := none }, rfl, trivial,
          by omega, hEp⟩
      | ok r0 =>
        obtain ⟨hm5, hE5, hrs, t5, hprev5⟩ :=
          consumeF_ok_facts hcon (by decide) hEp
        try dsimp only
        exact ⟨.ok (.VarDecl nameTok.lexeme none), ps4, rfl, trivial,
          by omega, hE5⟩

/-- `Parser::print_statement` terminates within its rank bound. -/
theorem printStatementF_suff (fuel : Nat) (ps : ParserState)
    (hE : hasEOF ps.tokens = true) (hb : 40 + 100 * psMeasure ps ≤ fuel) :
    StepBound (printStatementF fuel ps) ps := by
  cases fuel with
  | zero => exact absurd hb (by omega)
  | succ n =>
  simp only [printStatementF]
  obtain ⟨r, ps1, hx, hnp, hm1, hE1⟩ := parseExpressionF_suff n ps hE
    (by omega)
  rw [hx]
  cases r with
  | panicked => exact hnp.elim
  | errP e =>
    try dsimp only
    exact ⟨.errP e, ps1, rfl, trivial, hm1, hE1⟩
  | ok v =>
    try dsimp only
    cases hcon : consumeF ps1 .SEMICOLON with
    | mk cr ps2 =>
    try dsimp only
    cases cr with
    | panicked => exact (consumeF_no_panic hcon).elim
    | errP e =>
      have h5 := consumeF_err hcon
      rw [h5]
      try dsimp only
      exact ⟨.errP e, ps1, rfl, trivial, by omega, hE1⟩
    | ok r0 =>
      obtain ⟨hm2, hE2, _, _⟩ := consumeF_ok_facts hcon (by decide) hE1
      try dsimp only
      exact ⟨.ok (.Print v), ps2, rfl, trivial, by omega, hE2⟩

/-- `Parser::expression_statement` terminates within its rank bound; an
`Ok` result has consumed at least the terminating semicolon. -/
theorem expressionStatementF_suff (fuel : Nat) (ps : ParserState)
    (hE : hasEOF ps.tokens = true) (hb : 40 + 100 * psMeasure ps ≤ fuel) :
    StepBoundOk (expressionStatementF fuel ps) ps := by
  cases fuel with
  | zero => exact absurd hb (by omega)
  | succ n =>
  simp only [expressionStatementF]
  obtain ⟨r, ps1, hx, hnp, hm1, hE1⟩ := parseExpressionF_suff n ps hE
    (by omega)
  rw [hx]
  cases r with
  | panicked => exact hnp.elim
  | errP e =>
    try dsimp only
    exact ⟨.errP e, ps1, rfl, trivial, hm1, hE1, fun a ha => by cases ha⟩
  | ok v =>
    try dsimp only
    cases hcon : consumeF ps1 .SEMICOLON with
    | mk cr ps2 =>
    try dsimp only
    cases cr with
    | panicked => exact (consumeF_no_panic hcon).elim
    | errP e =>
      have h5 := consumeF_err hcon
      rw [h5]
      try dsimp only
      exact ⟨.errP e, ps1, rfl, trivial, by omega, hE1,
        fun a ha => by cases ha⟩
    | ok r0 =>
      obtain ⟨hm2, hE2, _, _⟩ := consumeF_ok_facts hcon (by decide) hE1
      try dsimp only
      exact ⟨.ok (.ExprStmt v), ps2, rfl, trivial, by omega, hE2,
        fun a ha => by omega⟩

/-- Every statement production of the parser terminates within the ranked
fuel bound (induction on fuel). -/
theorem statClique_all : ∀ fuel, StatClique fuel := by
  intro fuel
  induction fuel with
  | zero =>
    unfold StatClique
    exact ⟨fun ps hE hb => absurd hb (by omega),
      fun ps hE hb => absurd hb (by omega),
      fun acc ps hE hb => absurd hb (by omega),
      fun ps hE hb => absurd hb (by omega),
      fun ps hE hb => absurd hb (by omega),
      fun ps hE hb => absurd hb (by omega),
      fun ps hE hb => absurd hb (by omega),
      fun ps hE hb => absurd hb (by omega)⟩

  | succ n ih =>
    obtain ⟨ihBS, ihBF, ihBL, ihIf, ihWh, ihSP, ihSt, ihCol⟩ := ih
    unfold StatClique
    refine ⟨?_, ?_, ?_, ?_, ?_, ?_, ?_, ?_⟩
    · -- blockStatementF
      intro ps hE hb
      simp only [blockStatementF]
      obtain ⟨r, ps1, hbf, hnp, hm1, hE1⟩ := ihBF ps hE (by omega)
      rw [hbf]
      cases r with
      | panicked => exact hnp.elim
      | errP e =>
        try dsimp only
        exact ⟨.errP e, ps1, rfl, trivial, hm1, hE1⟩
      | ok stmts =>
        try dsimp only
        exact ⟨.ok (.Block stmts), ps1, rfl, trivial, hm1, hE1⟩
    · -- blockF
      intro ps hE hb
      simp only [blockF]
      exact ihBL [] ps hE (by omega)
    · -- blockLoopF
      intro acc ps hE hb
      simp only [blockLoopF]
      cases hg : blockGuard ps with
      | true =>
        simp only [eq_self_iff_true, if_true]
        obtain ⟨s, ps1, hcol, hm1, hE1, hd⟩ := ihCol ps hE (by omega)
        rw [hcol]
        try dsimp only
        cases hd with
        | inl hstrict =>
          obtain ⟨r2, ps2, hrec, hnp2, hm2, hE2⟩ :=
            ihBL (acc ++ [s]) ps1 hE1 (by omega)
          exact ⟨r2, ps2, hrec, hnp2, by omega, hE2⟩
        | inr hend =>
          obtain ⟨k, hk⟩ : ∃ k, n = k + 1 := ⟨n - 1, by omega⟩
          rw [hk]
          simp only [blockLoopF]
          rw [blockGuard_atEnd hend]
          simp only [Bool.false_eq_true, if_false]
          rw [consumeF_atEnd hend (by decide)]
          try dsimp only
          exact ⟨.errP .UnexpectedEOF, ps1, rfl, trivial, by omega, hE1⟩
      | false =>
        simp only [Bool.false_eq_true, if_false]
        cases hcon : consumeF ps .RIGHT_BRACE with
        | mk cr ps1 =>
        try dsimp only
        cases cr with
        | panicked => exact (consumeF_no_panic hcon).elim
        | errP e =>
          have h5 := consumeF_err hcon
          rw [h5]
          try dsimp only
          exact ⟨.errP e, ps, rfl, trivial, le_refl _, hE⟩
        | ok r0 =>
          obtain ⟨hm1, hE1, _, _⟩ := consumeF_ok_facts hcon (by decide) hE
          try dsimp only
          exact ⟨.ok acc, ps1, rfl, trivial, by omega, hE1⟩
    · -- ifStatementF
      intro ps hE hb
      simp only [ifStatementF]
      cases hcon : consumeF ps .LEFT_PAREN with
      | mk cr ps1 =>
      try dsimp only
      cases cr with
      | panicked => exact (consumeF_no_panic hcon).elim
      | errP e =>
        have h5 := consumeF_err hcon
        rw [h5]
        try dsimp only
        exact ⟨.errP e, ps, rfl, trivial, le_refl _, hE⟩
      | ok r0 =>
        obtain ⟨hm1, hE1, _, _⟩ := consumeF_ok_facts hcon (by decide) hE
        try dsimp only
        obtain ⟨r2, ps2, hex, hnp2, hm2, hE2⟩ :=
          expressionF_suff n ps1 hE1 (by omega)
        rw [hex]
        cases r2 with
        | panicked => exact hnp2.elim
        | errP e =>
          try dsimp only
          exact ⟨.errP e, ps2, rfl, trivial, by omega, hE2⟩
        | ok cond =>
          try dsimp only
          cases hcon2 : consumeF ps2 .RIGHT_PAREN with
          | mk cr2 ps3 =>
          try dsimp only
          cases cr2 with
          | panicked => exact (consumeF_no_panic hcon2).elim
          | errP e =>
            have h5 := consumeF_err hcon2
            rw [h5]
            try dsimp only
            exact ⟨.errP e, ps2, rfl, trivial, by omega, hE2⟩
          | ok r3 =>
            obtain ⟨hm3, hE3, _, _⟩ := consumeF_ok_facts hcon2 (by decide) hE2
            try dsimp only
            obtain ⟨thenS, ps4, hcol, hm4, hE4, _⟩ := ihCol ps3 hE3 (by omega)
            rw [hcol]
            try dsimp only
            cases hme : matchesF ps4 [.ELSE] with
            | mk me ps5 =>
            try dsimp only
            cases me with
            | false =>
              have h6 := matchesF_eq_false hme
              rw [h6]
              simp only [Bool.false_eq_true, if_false]
              exact ⟨.ok (.IfStmt cond thenS none), ps4, rfl, trivial,
                by omega, hE4⟩
            | true =>
              simp only [eq_self_iff_true, if_true]
              obtain ⟨hm5, hE5, t5, hprev5, _⟩ := matchesF_true_facts hme hE4
              obtain ⟨elseS, ps6, hcol2, hm6, hE6, _⟩ :=
                ihCol ps5 hE5 (by omega)
              rw [hcol2]
              try dsimp only
              exact ⟨.ok (.IfStmt cond thenS (some elseS)), ps6, rfl, trivial,
                by omega, hE6⟩
    · -- whileStatementF
      intro ps hE hb
      simp only [whileStatementF]
      cases hcon : consumeF ps .LEFT_PAREN with
      | mk cr ps1 =>
      try dsimp only
      cases cr with
      | panicked => exact (consumeF_no_panic hcon).elim
      | errP e =>
        have h5 := consumeF_err hcon
        rw [h5]
        try dsimp only
        exact ⟨.errP e, ps, rfl, trivial, le_refl _, hE⟩
      | ok r0 =>
        obtain ⟨hm1, hE1, _, _⟩ := consumeF_ok_facts hcon (by decide) hE
        try dsimp only
        obtain ⟨r2, ps2, hex, hnp2, hm2, hE2⟩ :=
          expressionF_suff n ps1 hE1 (by omega)
        rw [hex]
        cases r2 with
        | panicked => exact hnp2.elim
        | errP e =>
          try dsimp only
          exact ⟨.errP e, ps2, rfl, trivial, by omega, hE2⟩
        | ok cond =>
          try dsimp only
          cases hcon2 : consumeF ps2 .RIGHT_PAREN with
          | mk cr2 ps3 =>
          try dsimp only
          cases cr2 with
          | panicked => exact (consumeF_no_panic hcon2).elim
          | errP e =>
            have h5 := consumeF_err hcon2
            rw [h5]
            try dsimp only
            exact ⟨.errP e, ps2, rfl, trivial, by omega, hE2⟩
          | ok r3 =>
            obtain ⟨hm3, hE3, _, _⟩ := consumeF_ok_facts hcon2 (by decide) hE2
            try dsimp only
            obtain ⟨body, ps4, hcol, hm4, hE4, _⟩ := ihCol ps3 hE3 (by omega)
            rw [hcol]
            try dsimp only
            exact ⟨.ok (.While cond body), ps4, rfl, trivial, by omega, hE4⟩
    · -- stmtProductionF
      intro ps hE hb
      simp only [stmtProductionF]
      cases hm : matchesF ps [.PRINT] with
      | mk mp ps1 =>
      try dsimp only
      cases mp with
      | true =>
        simp only [eq_self_iff_true, if_true]
        obtain ⟨hm1, hE1, t, hprev, _⟩ := matchesF_true_facts hm hE
        obtain ⟨r, ps2, hpr, hnp, hm2, hE2⟩ :=
          printStatementF_suff n ps1 hE1 (by omega)
        exact ⟨r, ps2, hpr, hnp, by omega, hE2, fun a ha => by omega⟩
      | false =>
        have h1 := matchesF_eq_false hm
        rw [h1]
        simp only [Bool.false_eq_true, if_false]
        cases hm2 : matchesF ps [.LEFT_BRACE] with
        | mk mb ps2 =>
        try dsimp only
        cases mb with
        | true =>
          simp only [eq_self_iff_true, if_true]
          obtain ⟨hm3, hE3, t, hprev, _⟩ := matchesF_true_facts hm2 hE
          obtain ⟨r, ps3, hbs, hnp, hm4, hE4⟩ := ihBS ps2 hE3 (by omega)
          exact ⟨r, ps3, hbs, hnp, by omega, hE4, fun a ha => by omega⟩
        | false =>
          have h2 := matchesF_eq_false hm2
          rw [h2]
          simp only [Bool.false_eq_true, if_false]
          cases hm3 : matchesF ps [.IF] with
          | mk mi ps3 =>
          try dsimp only
          cases mi with
          | true =>
            simp only [eq_self_iff_true, if_true]
            obtain ⟨hm4, hE4, t, hprev, _⟩ := matchesF_true_facts hm3 hE
            obtain ⟨r, ps4, hif, hnp, hm5, hE5⟩ := ihIf ps3 hE4 (by omega)
            exact ⟨r, ps4, hif, hnp, by omega, hE5, fun a ha => by omega⟩
          | false =>
            have h3 := matchesF_eq_false hm3
            rw [h3]
            simp only [Bool.false_eq_true, if_false]
            cases hm4 : matchesF ps [.WHILE] with
            | mk mw ps4 =>
            try dsimp only
            cases mw with
            | true =>
              simp only [eq_self_iff_true, if_true]
              obtain ⟨hm5, hE5, t, hprev, _⟩ := matchesF_true_facts hm4 hE
              obtain ⟨r, ps5, hwh, hnp, hm6, hE6⟩ := ihWh ps4 hE5 (by omega)
              exact ⟨r, ps5, hwh, hnp, by omega, hE6, fun a ha => by omega⟩
            | false =>
              have h4 := matchesF_eq_false hm4
              rw [h4]
              simp only [Bool.false_eq_true, if_false]
              exact expressionStatementF_suff n ps hE (by omega)
    · -- statementF
      intro ps hE hb
      simp only [statementF]
      cases hm : matchesF ps [.COMMENT, .MULTI_LINE_COMMENT] with
      | mk mc ps1 =>
      try dsimp only
      cases mc with
      | true =>
        simp only [eq_self_iff_true, if_true]
        obtain ⟨hm1, hE1, t, hprev, _⟩ := matchesF_true_facts hm hE
        exact ⟨.Empty, ps1, rfl, by omega, hE1, Or.inl (by omega)⟩
      | false =>
        have h1 := matchesF_eq_false hm
        rw [h1]
        simp only [Bool.false_eq_true, if_false]
        obtain ⟨r, ps2, hsp, hnp, hm2, hE2, hstrict⟩ := ihSP ps hE (by omega)
        rw [hsp]
        cases r with
        | panicked => exact hnp.elim
        | ok s =>
          try dsimp only
          exact ⟨s, ps2, rfl, hm2, hE2, Or.inl (hstrict s rfl)⟩
        | errP e =>
          try dsimp only
          obtain ⟨ps3, hsync, hs1, hs2, _, hst2, hid⟩ :=
            synchronizeF_suff n ps2 hE2 (by omega)
          rw [hsync]
          try dsimp only
          refine ⟨stmtOfError e, ps3, rfl, by omega, hs2, ?_⟩
          cases hae : isAtEnd ps2 with
          | false =>
            refine Or.inl ?_
            have h7 := hst2 hae
            omega
          | true =>
            refine Or.inr ?_
            have h8 := hid hae
            rw [h8]
            exact hae
    · -- collectF
      intro ps hE hb
      simp only [collectF]
      cases hm : matchesF ps [.VAR] with
      | mk mv ps1 =>
      try dsimp only
      cases mv with
      | true =>
        simp only [eq_self_iff_true, if_true]
        obtain ⟨hm1, hE1, t, hprev, _⟩ := matchesF_true_facts hm hE
        obtain ⟨r, ps2, hvd, hnp, hm2, hE2⟩ :=
          varDeclarationF_suff n ps1 hE1 (by omega)
        rw [hvd]
        cases r with
        | panicked => exact hnp.elim
        | ok d =>
          try dsimp only
          exact ⟨d, ps2, rfl, by omega, hE2, Or.inl (by omega)⟩
        | errP e =>
          try dsimp only
          exact ⟨stmtOfError e, ps2, rfl, by omega, hE2, Or.inl (by omega)⟩
      | false =>
        have h1 := matchesF_eq_false hm
        rw [h1]
        simp only [Bool.false_eq_true, if_false]
        exact ihSt ps hE (by omega)

/-- `Parser::collect` terminates within its rank bound. -/
theorem collectF_suff (fuel : Nat) (ps : ParserState)
    (hE : hasEOF ps.tokens = true) (hb : 43 + 100 * psMeasure ps ≤ fuel) :
    StepBoundStop (collectF fuel ps) ps := by
  obtain ⟨_, _, _, _, _, _, _, hCol⟩ := statClique_all fuel
  exact hCol ps hE hb

/-- The collect loop of `Parser::parse` terminates within its rank bound. -/
theorem parseLoopF_suff :
    ∀ (fuel : Nat) (acc : List Stmt) (ps : ParserState),
      hasEOF ps.tokens = true → 47 + 100 * psMeasure ps ≤ fuel →
      StepBoundT (parseLoopF fuel acc ps) ps := by
  intro fuel
  induction fuel with
  | zero => intro acc ps hE hb; exact absurd hb (by omega)
  | succ n ih =>
    intro acc ps hE hb
    simp only [parseLoopF]
    cases hae : isAtEnd ps with
    | true =>
      simp only [Bool.not_true, Bool.false_eq_true, if_false]
      exact ⟨.ok acc, ps, rfl, trivial, le_refl _, hE⟩
    | false =>
      simp only [Bool.not_false, eq_self_iff_true, if_true]
      obtain ⟨s, ps1, hcol, hm1, hE1, hd⟩ := collectF_suff n ps hE (by omega)
      rw [hcol]
      try dsimp only
      cases hd with
      | inl hstrict =>
        obtain ⟨r2, ps2, hrec, hnp2, hm2, hE2⟩ :=
          ih (acc ++ [s]) ps1 hE1 (by omega)
        exact ⟨r2, ps2, hrec, hnp2, by omega, hE2⟩
      | inr hend =>
        obtain ⟨k, hk⟩ : ∃ k, n = k + 1 := ⟨n - 1, by omega⟩
        rw [hk]
        simp only [parseLoopF]
        rw [hend]
        simp only [Bool.not_true, Bool.false_eq_true, if_false]
        exact ⟨.ok (acc ++ [s]), ps1, rfl, trivial, by omega, hE1⟩

/-- `Parser::parse` terminates within its rank bound. -/
theorem parseF_suff (fuel : Nat) (ps : ParserState)
    (hE : hasEOF ps.tokens = true) (hb : 48 + 100 * psMeasure ps ≤ fuel) :
    StepBoundT (parseF fuel ps) ps := by
  cases fuel with
  | zero => exact absurd hb (by omega)
  | succ n =>
    simp only [parseF]
    exact parseLoopF_suff n [] ps hE (by omega)

theorem hasEOF_append_eof {ts : List Token} {t : Token}
    (h : t.ttype = .EOF) : hasEOF (ts ++ [t]) = true := by
  induction ts with
  | nil => simp [hasEOF, h]
  | cons a rest ih => simp [hasEOF, ih]

/-- **C1.** For every finite token sequence terminated by an `EOF` token,
`Parser::parse` returns a complete statement list (no panic, no outright
failure, no non-termination); and a syntax error raised while parsing a
statement is converted into an `ErrStmt` entry (built from the error's
display string) rather than propagated to the caller: after a statement
production fails, `statement` synchronizes and returns
`Ok(stmtOfError e)`, and `collect` does the same on the `var`-declaration
path. -/
theorem parse_total_and_converts_errors (ts : List Token) (eofTok : Token)
    (hEof : eofTok.ttype = .EOF) :
    (∃ stmts psF,
        parseF (parserFuel (ts ++ [eofTok])) (initParser (ts ++ [eofTok]))
          = some (.ok stmts, psF))
    ∧ (∀ (fuel : Nat) (ps ps1 ps2 ps3 : ParserState) (e : ParserError),
        matchesF ps [.COMMENT, .MULTI_LINE_COMMENT] = (false, ps1) →
        stmtProductionF fuel ps1 = some (.errP e, ps2) →
        synchronizeF fuel ps2 = some ps3 →
        statementF (fuel + 1) ps = some (.ok (stmtOfError e), ps3))
    ∧ (∀ (fuel : Nat) (ps ps1 ps2 : ParserState) (e : ParserError),
        matchesF ps [.VAR] = (true, ps1) →
        varDeclarationF fuel ps1 = some (.errP e, ps2) →
        collectF (fuel + 1) ps = some (.ok (stmtOfError e), ps2)) := by
  refine ⟨?_, ?_, ?_⟩
  · have hE : hasEOF (ts ++ [eofTok]) = true := hasEOF_append_eof hEof
    have hmu : psMeasure (initParser (ts ++ [eofTok]))
        = (ts ++ [eofTok]).length := by
      simp [psMeasure, initParser]
    obtain ⟨r, psF, heq, hnp, _, _⟩ :=
      parseF_suff (parserFuel (ts ++ [eofTok]))
        (initParser (ts ++ [eofTok])) hE
        (by rw [hmu, parserFuel]; omega)
    cases r with
    | panicked => exact hnp.elim
    | ok stmts => exact ⟨stmts, psF, heq⟩
  · intro fuel ps ps1 ps2 ps3 e hmc hsp hsync
    simp only [statementF]
    rw [hmc]
    try dsimp only
    simp only [Bool.false_eq_true, if_false]
    rw [hsp]
    try dsimp only
    rw [hsync]
  · intro fuel ps ps1 ps2 e hmv hvd
    simp only [collectF]
    rw [hmv]
    try dsimp only
    simp only [eq_self_iff_true, if_true]
    rw [hvd]

/-- Concrete instance of the C1 theorem: the two-token program `1` followed
by `EOF` parses to a complete statement list. -/
theorem parse_total_and_converts_errors_witness :
    (⟨.EOF, "", 1, 2⟩ : Token).ttype = .EOF
    ∧ ∃ stmts psF,
        parseF (parserFuel ([⟨.NUMBER, "1", 1, 1⟩] ++ [⟨.EOF, "", 1, 2⟩]))
          (initParser ([⟨.NUMBER, "1", 1, 1⟩] ++ [⟨.EOF, "", 1, 2⟩]))
          = some (.ok stmts, psF) :=
  ⟨rfl, (parse_total_and_converts_errors [⟨.NUMBER, "1", 1, 1⟩]
    ⟨.EOF, "", 1, 2⟩ rfl).1⟩

end LOXR
